import Mathlib

/-!
# Frame loop and input state machine of the platformer engine

A shallow embedding of `src/core/Engine.cpp`, `src/core/Input.cpp`,
`src/core/Timer.cpp`, `src/core/Window.cpp`, `include/core/ResourceManager.hpp`,
`include/core/Logger.hpp`, `include/graphics/Vertex.hpp` and
`src/graphics/Mesh.cpp`, followed by the properties proved about it.

Conventions of the embedding

* C++ `double` quantities (clock readings, frame deltas, the accumulator) are
  exact rationals in the main model.  The fixed-step scheduler is modelled a
  second time with IEEE-754 binary64 rounding (section "binary64"), because
  some of its properties depend on rounding.
* A `std::array<KeyState, N>` is a total map `Fin N → KeyState`.
* The `std::unordered_map` of actions is an association list; the order of
  the list is the (unspecified) iteration order of the map.
* A `std::function<void()>` callback is an identifier; invoking it appends the
  identifier to a trace.  Callbacks do not touch the `Input` instance.
* The GLFW constants have the values of `GLFW/glfw3.h` (GLFW 3).
* What the platform and the libraries answer (window creation, OpenGL object
  names, the loader of a resource, GLM's default vectors) is a parameter of
  the function that asks.
* Strings that are formatted are lists of characters.
-/

namespace Platformer

/-! ## Fixed-step scheduler, exact arithmetic (`Engine.hpp` 31-33, `Engine.cpp` 79-84) -/

/-- Embeds `static constexpr double FIXED_TIME_STEP = 1.0 / 60.0;` read over
exact numbers (the binary64 constant is `FIXED_TIME_STEP_F64`). -/
def FIXED_TIME_STEP : ℚ := 1 / 60

/-- The drain loop
`while (m_Accumulator >= FIXED_TIME_STEP) { FixedUpdate(FIXED_TIME_STEP); m_Accumulator -= FIXED_TIME_STEP; }`
read over exact numbers: no operation rounds.  `FixedUpdate` has an empty
body, so its only trace is the number of times it was invoked, counted in
`calls`.  The result is the final accumulator and the final count.  The loop
as the machine runs it, on binary64 values, is `drainF64`. -/
def drain (acc : ℚ) (calls : Nat) : ℚ × Nat :=
  if FIXED_TIME_STEP ≤ acc then drain (acc - FIXED_TIME_STEP) (calls + 1) else (acc, calls)
termination_by (⌊acc / FIXED_TIME_STEP⌋).toNat
decreasing_by
  rename_i h
  have hpos : (0 : ℚ) < FIXED_TIME_STEP := by norm_num [FIXED_TIME_STEP]
  have h1 : (acc - FIXED_TIME_STEP) / FIXED_TIME_STEP = acc / FIXED_TIME_STEP - 1 := by
    field_simp
  have h2 : (1 : ℤ) ≤ ⌊acc / FIXED_TIME_STEP⌋ := by
    rw [Int.le_floor, le_div_iff₀ hpos]
    simpa using h
  rw [h1, Int.floor_sub_one]
  omega

/-- Lines 80-84 of `Engine::Run` read over exact numbers:
`m_Accumulator += deltaTime;` followed by the drain loop.  Returns the new
accumulator and the number of `FixedUpdate` calls made in this frame.  The
same lines on binary64 values are `fixedTimestepF64`. -/
def fixedTimestep (accumulator deltaTime : ℚ) : ℚ × Nat :=
  drain (accumulator + deltaTime) 0

/-- The accumulator after a sequence of frames with the given deltas. -/
def accumulatorAfter (accumulator : ℚ) (deltas : List ℚ) : ℚ :=
  deltas.foldl (fun a d => (fixedTimestep a d).1) accumulator

/-! ## Fixed-step scheduler, binary64 arithmetic

A finite non-negative binary64 number is an integer multiple of `2^-1074`
(the smallest subnormal); it is represented by that integer.  Sums and
differences of such numbers are again integer multiples of `2^-1074`, and the
machine operation returns them rounded to 53 significant bits, ties to even.
Overflow to infinity is not modelled (all values used stay far below
`2^1024`). -/

/-- The integer nearest to `n / d`, ties to the even neighbour. -/
def roundHalfEven (n d : Nat) : Nat :=
  let q := n / d
  let r := n % d
  if 2 * r < d then q else if d < 2 * r then q + 1 else if q % 2 = 0 then q else q + 1

/-- Auxiliary of `bitLength`, by repeated halving. -/
def bitLengthAux : Nat → Nat → Nat
  | 0, _ => 0
  | fuel + 1, n => if n = 0 then 0 else bitLengthAux fuel (n / 2) + 1

/-- The number of binary digits of `n` (`0` for `n = 0`). -/
def bitLength (n : Nat) : Nat := bitLengthAux n n

/-- The binary64 number nearest to `n / d` units of `2^-1074`: the low bits
beyond 53 significant ones are rounded away, ties to even. -/
def roundBinary64 (n d : Nat) : Nat :=
  let sh := bitLength (n / d) - 53
  roundHalfEven n (d * 2 ^ sh) * 2 ^ sh

/-- The number `1.0` in units of `2^-1074`. -/
def binary64One : Nat := 2 ^ 1074

/-- The binary64 sum `a + b`. -/
def f64Add (a b : Nat) : Nat := roundBinary64 (a + b) 1

/-- The binary64 difference `a - b`, for `b ≤ a`. -/
def f64Sub (a b : Nat) : Nat := roundBinary64 (a - b) 1

/-- The constant `1.0 / 60.0` as the compiler folds it: `0x1.1111111111111p-6`. -/
def FIXED_TIME_STEP_F64 : Nat := roundBinary64 binary64One 60

/-- The drain loop on binary64 values.  Rounding can make
`m_Accumulator -= FIXED_TIME_STEP` a no-op for a huge accumulator, so the
loop is not total; `fuel` bounds the number of iterations and `none` means the
bound was reached. -/
def drainF64 : Nat → Nat → Nat → Option (Nat × Nat)
  | 0, _, _ => none
  | fuel + 1, acc, calls =>
    if FIXED_TIME_STEP_F64 ≤ acc then
      drainF64 fuel (f64Sub acc FIXED_TIME_STEP_F64) (calls + 1)
    else some (acc, calls)

/-- Lines 80-84 of `Engine::Run` on binary64 values. -/
def fixedTimestepF64 (fuel accumulator deltaTime : Nat) : Option (Nat × Nat) :=
  drainF64 fuel (f64Add accumulator deltaTime) 0

/-! ## Input (`Input.hpp`, `Input.cpp`) -/

/-- Embeds `GLFW_KEY_LAST` (`GLFW_KEY_MENU`). -/
abbrev GLFW_KEY_LAST : Nat := 348

/-- Embeds `GLFW_KEY_ESCAPE`. -/
def GLFW_KEY_ESCAPE : Int := 256

/-- Embeds `GLFW_RELEASE`. -/
def GLFW_RELEASE : Int := 0

/-- Embeds `GLFW_PRESS`. -/
def GLFW_PRESS : Int := 1

/-- Embeds `GLFW_REPEAT`. -/
def GLFW_REPEAT : Int := 2

/-- Embeds `enum class KeyState`. -/
inductive KeyState where
  | Released
  | Pressed
  | Held
  | JustReleased
  deriving DecidableEq, Repr

/-- Embeds `MouseButton::Count`: the enumerators `Left .. Button5` are `0 .. 4`.  A
`MouseButton` value is modelled by its underlying `int`. -/
abbrev MouseButtonCount : Nat := 5

/-- Embeds `static_cast<size_t>(button)` on a 64-bit target. -/
def sizeT (button : Int) : Nat := (button % 2 ^ 64).toNat

/-- Embeds `struct InputAction`. -/
structure InputAction where
  name : String
  keys : List Int
  mouseButtons : List Int
  callback : Option Nat
  isActive : Bool

/-- The data members of `class Input` (the window pointer apart). -/
structure Input where
  m_KeyStates : Fin (GLFW_KEY_LAST + 1) → KeyState
  m_MouseButtonStates : Fin MouseButtonCount → KeyState
  m_Actions : List (String × InputAction)
  m_MouseX : ℚ
  m_MouseY : ℚ
  m_LastMouseX : ℚ
  m_LastMouseY : ℚ
  m_MouseScrollDelta : ℚ
  m_FirstMouse : Bool

namespace Input

/-- State left by the constructor `Input::Input`. -/
def init : Input where
  m_KeyStates := fun _ => KeyState.Released
  m_MouseButtonStates := fun _ => KeyState.Released
  m_Actions := []
  m_MouseX := 0
  m_MouseY := 0
  m_LastMouseX := 0
  m_LastMouseY := 0
  m_MouseScrollDelta := 0
  m_FirstMouse := true

/-- Body of the loops of `UpdateKeyStates` and `UpdateMouseButtonStates` at
index `i`. -/
def updateStateAt {n : Nat} (t : Fin n → KeyState) (i : Fin n) : Fin n → KeyState :=
  if t i = KeyState.JustReleased then Function.update t i KeyState.Released
  else if t i = KeyState.Pressed then Function.update t i KeyState.Held
  else t

/-- The first `k` iterations `i = 0, .., k - 1` of
`for (size_t i = 0; i < states.size(); ++i) { .. }`. -/
def updateStatesLoop {n : Nat} (t : Fin n → KeyState) : Nat → Fin n → KeyState
  | 0 => t
  | k + 1 =>
    if h : k < n then updateStateAt (updateStatesLoop t k) ⟨k, h⟩
    else updateStatesLoop t k

/-- Embeds `Input::UpdateKeyStates`. -/
def UpdateKeyStates (s : Input) : Input :=
  { s with m_KeyStates := updateStatesLoop s.m_KeyStates (GLFW_KEY_LAST + 1) }

/-- Embeds `Input::UpdateMouseButtonStates`. -/
def UpdateMouseButtonStates (s : Input) : Input :=
  { s with m_MouseButtonStates := updateStatesLoop s.m_MouseButtonStates MouseButtonCount }

/-- Slot `m_KeyStates[key]` for a key that passed the range check. -/
def keySlot (key : Int) (h : ¬ (key < 0 ∨ key ≥ GLFW_KEY_LAST)) : Fin (GLFW_KEY_LAST + 1) :=
  ⟨key.toNat, by omega⟩

/-- Embeds `Input::IsKeyPressed`. -/
def IsKeyPressed (s : Input) (key : Int) : Bool :=
  if h : key < 0 ∨ key ≥ GLFW_KEY_LAST then false
  else decide (s.m_KeyStates (keySlot key h) = KeyState.Pressed)

/-- Embeds `Input::IsKeyHeld`. -/
def IsKeyHeld (s : Input) (key : Int) : Bool :=
  if h : key < 0 ∨ key ≥ GLFW_KEY_LAST then false
  else decide (s.m_KeyStates (keySlot key h) = KeyState.Held)

/-- Embeds `Input::IsKeyReleased`. -/
def IsKeyReleased (s : Input) (key : Int) : Bool :=
  if h : key < 0 ∨ key ≥ GLFW_KEY_LAST then false
  else decide (s.m_KeyStates (keySlot key h) = KeyState.Released)

/-- Embeds `Input::IsKeyJustReleased`. -/
def IsKeyJustReleased (s : Input) (key : Int) : Bool :=
  if h : key < 0 ∨ key ≥ GLFW_KEY_LAST then false
  else decide (s.m_KeyStates (keySlot key h) = KeyState.JustReleased)

/-- Embeds `Input::GetKeyState`. -/
def GetKeyState (s : Input) (key : Int) : KeyState :=
  if h : key < 0 ∨ key ≥ GLFW_KEY_LAST then KeyState.Released
  else s.m_KeyStates (keySlot key h)

/-- Embeds `Input::IsMouseButtonPressed`. -/
def IsMouseButtonPressed (s : Input) (button : Int) : Bool :=
  if h : sizeT button ≥ MouseButtonCount then false
  else decide (s.m_MouseButtonStates ⟨sizeT button, by omega⟩ = KeyState.Pressed)

/-- Embeds `Input::IsMouseButtonHeld`. -/
def IsMouseButtonHeld (s : Input) (button : Int) : Bool :=
  if h : sizeT button ≥ MouseButtonCount then false
  else decide (s.m_MouseButtonStates ⟨sizeT button, by omega⟩ = KeyState.Held)

/-- Embeds `Input::IsMouseButtonReleased`. -/
def IsMouseButtonReleased (s : Input) (button : Int) : Bool :=
  if h : sizeT button ≥ MouseButtonCount then false
  else decide (s.m_MouseButtonStates ⟨sizeT button, by omega⟩ = KeyState.Released)

/-- Embeds `Input::IsMouseButtonJustReleased`. -/
def IsMouseButtonJustReleased (s : Input) (button : Int) : Bool :=
  if h : sizeT button ≥ MouseButtonCount then false
  else decide (s.m_MouseButtonStates ⟨sizeT button, by omega⟩ = KeyState.JustReleased)

/-- Embeds `Input::GetMouseButtonState`. -/
def GetMouseButtonState (s : Input) (button : Int) : KeyState :=
  if h : sizeT button ≥ MouseButtonCount then KeyState.Released
  else s.m_MouseButtonStates ⟨sizeT button, by omega⟩

/-- Trace of `if (action.callback) { action.callback(); }`. -/
def invoke (action : InputAction) : List Nat :=
  match action.callback with
  | some cb => [cb]
  | none => []

/-- The key loop of `UpdateActionStates`:
`for (int key : action.keys) { if (pressed or held) { isActive = true; callback; break; } }`. -/
def checkKeys (s : Input) : List Int → InputAction → InputAction × List Nat
  | [], action => (action, [])
  | key :: rest, action =>
    if s.IsKeyPressed key || s.IsKeyHeld key then
      ({ action with isActive := true }, invoke action)
    else checkKeys s rest action

/-- The mouse-button loop of `UpdateActionStates`. -/
def checkMouseButtons (s : Input) : List Int → InputAction → InputAction × List Nat
  | [], action => (action, [])
  | button :: rest, action =>
    if s.IsMouseButtonPressed button || s.IsMouseButtonHeld button then
      ({ action with isActive := true }, invoke action)
    else checkMouseButtons s rest action

/-- Body of the outer loop of `UpdateActionStates` for one action: the
recomputed action and the callbacks invoked, in order. -/
def updateAction (s : Input) (action : InputAction) : InputAction × List Nat :=
  let a0 := { action with isActive := false }
  let r1 := checkKeys s a0.keys a0
  if !r1.1.isActive then
    let r2 := checkMouseButtons s r1.1.mouseButtons r1.1
    (r2.1, r1.2 ++ r2.2)
  else r1

/-- The outer loop `for (auto& [name, action] : m_Actions)`. -/
def updateActions (s : Input) : List (String × InputAction) → List (String × InputAction) × List Nat
  | [] => ([], [])
  | (name, action) :: rest =>
    let r := updateAction s action
    let rs := updateActions s rest
    ((name, r.1) :: rs.1, r.2 ++ rs.2)

/-- Embeds `Input::UpdateActionStates`, with the trace of invoked callbacks. -/
def UpdateActionStates (s : Input) : Input × List Nat :=
  let r := updateActions s s.m_Actions
  ({ s with m_Actions := r.1 }, r.2)

/-- Embeds `Input::Update`, with the trace of invoked callbacks. -/
def Update (s : Input) : Input × List Nat :=
  let s1 := s.UpdateKeyStates
  let s2 := s1.UpdateMouseButtonStates
  let r := s2.UpdateActionStates
  ({ r.1 with m_MouseScrollDelta := 0 }, r.2)

/-- Embeds `Input::IsActionActive`. -/
def IsActionActive (s : Input) (name : String) : Bool :=
  match s.m_Actions.lookup name with
  | some action => action.isActive
  | none => false

/-- Embeds `Input::KeyCallback`, for `s_Instance` pointing to `s`. -/
def KeyCallback (s : Input) (key action : Int) : Input :=
  if h : key ≥ 0 ∧ key < GLFW_KEY_LAST then
    if action = GLFW_PRESS then
      { s with m_KeyStates := Function.update s.m_KeyStates ⟨key.toNat, by omega⟩ KeyState.Pressed }
    else if action = GLFW_RELEASE then
      { s with m_KeyStates := Function.update s.m_KeyStates ⟨key.toNat, by omega⟩ KeyState.JustReleased }
    else if action = GLFW_REPEAT then
      { s with m_KeyStates := Function.update s.m_KeyStates ⟨key.toNat, by omega⟩ KeyState.Held }
    else s
  else s

/-- Embeds `Input::MouseButtonCallback`, for `s_Instance` pointing to `s`. -/
def MouseButtonCallback (s : Input) (button action : Int) : Input :=
  if h : button ≥ 0 ∧ button < MouseButtonCount then
    if action = GLFW_PRESS then
      { s with m_MouseButtonStates :=
          Function.update s.m_MouseButtonStates ⟨button.toNat, by omega⟩ KeyState.Pressed }
    else if action = GLFW_RELEASE then
      { s with m_MouseButtonStates :=
          Function.update s.m_MouseButtonStates ⟨button.toNat, by omega⟩ KeyState.JustReleased }
    else s
  else s

/-- Embeds `Input::CursorPosCallback`, for `s_Instance` pointing to `s`. -/
def CursorPosCallback (s : Input) (x y : ℚ) : Input :=
  let s1 :=
    if s.m_FirstMouse then
      { s with m_LastMouseX := x, m_LastMouseY := y, m_FirstMouse := false }
    else s
  { s1 with m_MouseX := x, m_MouseY := y }

/-- Embeds `Input::ScrollCallback`, for `s_Instance` pointing to `s`. -/
def ScrollCallback (s : Input) (_xoffset yoffset : ℚ) : Input :=
  { s with m_MouseScrollDelta := yoffset }

/-- Embeds `Input::GetMousePosition`: the values written to `x` and `y`. -/
def GetMousePosition (s : Input) : ℚ × ℚ :=
  (s.m_MouseX, s.m_MouseY)

/-- Embeds `Input::GetMouseDelta`: the values written to `dx` and `dy`, and the
state the call leaves. -/
def GetMouseDelta (s : Input) : (ℚ × ℚ) × Input :=
  let dx := s.m_MouseX - s.m_LastMouseX
  let dy := s.m_LastMouseY - s.m_MouseY
  ((dx, dy), { s with m_LastMouseX := s.m_MouseX, m_LastMouseY := s.m_MouseY })

/-- Embeds `Input::GetMouseScrollDelta`. -/
def GetMouseScrollDelta (s : Input) : ℚ :=
  s.m_MouseScrollDelta

/-- The assignment `m_Actions[name] = action`: the entry of `name` is
overwritten where it stands, and a new entry is added when there is none (at
the end of the list; the place of a new entry in the iteration order of the
map is unspecified). -/
def assignAction (name : String) (action : InputAction) :
    List (String × InputAction) → List (String × InputAction)
  | [] => [(name, action)]
  | (n, a) :: rest =>
    if name == n then (n, action) :: rest else (n, a) :: assignAction name action rest

/-- Embeds `Input::MapAction`.  The local `InputAction action` starts with an
empty `callback`, which the function does not set. -/
def MapAction (s : Input) (name : String) (keys : List Int) (mouseButtons : List Int) : Input :=
  let action : InputAction :=
    { name := name, keys := keys, mouseButtons := mouseButtons, callback := none,
      isActive := false }
  { s with m_Actions := assignAction name action s.m_Actions }

/-- The calls `it = m_Actions.find(name)` and `m_Actions.erase(it)`: the entry
found for `name` is removed; nothing changes when there is none. -/
def eraseAction (name : String) : List (String × InputAction) → List (String × InputAction)
  | [] => []
  | (n, a) :: rest => if name == n then rest else (n, a) :: eraseAction name rest

/-- Embeds `Input::UnmapAction`. -/
def UnmapAction (s : Input) (name : String) : Input :=
  { s with m_Actions := eraseAction name s.m_Actions }

/-- The calls `it = m_Actions.find(name)` and `it->second.callback = callback`. -/
def assignCallback (name : String) (callback : Option Nat) :
    List (String × InputAction) → List (String × InputAction)
  | [] => []
  | (n, a) :: rest =>
    if name == n then (n, { a with callback := callback }) :: rest
    else (n, a) :: assignCallback name callback rest

/-- Embeds `Input::BindActionCallback`; an empty `std::function` is `none`. -/
def BindActionCallback (s : Input) (name : String) (callback : Option Nat) : Input :=
  { s with m_Actions := assignCallback name callback s.m_Actions }

end Input

/-- A device event as GLFW hands it to the registered callbacks. -/
inductive Event where
  | key (key action : Int)
  | mouseButton (button action : Int)
  | cursorPos (x y : ℚ)
  | scroll (xoffset yoffset : ℚ)

/-- Delivery of one event to the callback registered for it in `Input::Input`. -/
def deliver (s : Input) : Event → Input
  | Event.key key action => s.KeyCallback key action
  | Event.mouseButton button action => s.MouseButtonCallback button action
  | Event.cursorPos x y => s.CursorPosCallback x y
  | Event.scroll xoffset yoffset => s.ScrollCallback xoffset yoffset

/-- Embeds `Window::Update` (`glfwPollEvents`): the pending events are delivered in
order. -/
def pollEvents (s : Input) (events : List Event) : Input :=
  events.foldl deliver s

/-! ## Timer (`Timer.hpp`, `Timer.cpp`) -/

/-- The data members of `class Timer`; time points and durations in seconds. -/
structure Timer where
  m_LastUpdate : ℚ
  m_DeltaTime : ℚ
  m_TotalTime : ℚ

/-- Embeds `Timer::Update`, with the reading `now` of `Clock::now()`. -/
def Timer.Update (t : Timer) (now : ℚ) : Timer :=
  let duration := now - t.m_LastUpdate
  { m_LastUpdate := now, m_DeltaTime := duration, m_TotalTime := t.m_TotalTime + duration }

/-- State left by the constructor `Timer::Timer`, with the reading `now` of
`Clock::now()`. -/
def Timer.init (now : ℚ) : Timer :=
  { m_LastUpdate := now, m_DeltaTime := 0, m_TotalTime := 0 }

/-- Embeds `Timer::Reset`, with the reading `now` of `Clock::now()`. -/
def Timer.Reset (_t : Timer) (now : ℚ) : Timer :=
  { m_LastUpdate := now, m_DeltaTime := 0, m_TotalTime := 0 }

/-- The timer after a sequence of `Timer::Update` calls with the given clock
readings. -/
def Timer.updates (t : Timer) (readings : List ℚ) : Timer :=
  readings.foldl Timer.Update t

/-! ## Engine loop (`Engine.hpp`, `Engine.cpp`) -/

/-- The members of `class Engine` that the loop of `Engine::Run` reads and
writes, and the number of `FixedUpdate` calls made so far.  The player fields
(written by `Engine::Update` only) and the window are left out. -/
structure Engine where
  m_Timer : Timer
  m_Input : Input
  m_Running : Bool
  m_Accumulator : ℚ
  fixedUpdates : Nat

/-- What the platform supplies during one iteration of the loop: the clock
reading taken by `m_Timer->Update()`, the events delivered by
`m_Window->Update()` and the answer of `m_Window->ShouldClose()`. -/
structure Frame where
  now : ℚ
  events : List Event
  shouldClose : Bool

/-- One iteration of the body of `while (m_Running)` in `Engine::Run`, in the
order of the source: timer, input update, Escape check, accumulate and drain,
event polling, close check.  `Update(deltaTime)` and `Render()`, between the
drain loop and the polling, write only the player fields and the window. -/
def Engine.loopBody (e : Engine) (f : Frame) : Engine :=
  let timer := e.m_Timer.Update f.now
  let deltaTime := timer.m_DeltaTime
  let input := e.m_Input.Update.1
  let running1 := if input.IsKeyPressed GLFW_KEY_ESCAPE then false else e.m_Running
  let r := fixedTimestep e.m_Accumulator deltaTime
  let input1 := pollEvents input f.events
  let running2 := if f.shouldClose then false else running1
  { m_Timer := timer, m_Input := input1, m_Running := running2, m_Accumulator := r.1,
    fixedUpdates := e.fixedUpdates + r.2 }

/-- Embeds `Engine::Run` over the frames the platform supplies: the body is repeated
while `m_Running` holds. -/
def Engine.Run : Engine → List Frame → Engine
  | e, [] => e
  | e, f :: fs => if e.m_Running then Engine.Run (e.loopBody f) fs else e

/-! ## Engine object from construction on (`Engine.cpp` 5-68, `Window.cpp` 12-55) -/

/-- Embeds `GLFW_KEY_SPACE`. -/
def GLFW_KEY_SPACE : Int := 32

/-- Embeds `GLFW_KEY_A`. -/
def GLFW_KEY_A : Int := 65

/-- Embeds `GLFW_KEY_D`. -/
def GLFW_KEY_D : Int := 68

/-- Embeds `GLFW_KEY_S`. -/
def GLFW_KEY_S : Int := 83

/-- Embeds `GLFW_KEY_RIGHT`. -/
def GLFW_KEY_RIGHT : Int := 262

/-- Embeds `GLFW_KEY_LEFT`. -/
def GLFW_KEY_LEFT : Int := 263

/-- Embeds `GLFW_KEY_DOWN`. -/
def GLFW_KEY_DOWN : Int := 264

/-- Embeds `GLFW_KEY_LEFT_SHIFT`. -/
def GLFW_KEY_LEFT_SHIFT : Int := 340

/-- What the platform answers while a window is created: whether `glfwInit()`
succeeds and whether `glfwCreateWindow(..)` returns a window. -/
structure Platform where
  glfwInit : Bool
  glfwCreateWindow : Bool

/-- Embeds `Window::Init`: the value it returns. -/
def Window.Init (p : Platform) : Bool :=
  if !p.glfwInit then false
  else if !p.glfwCreateWindow then false
  else true

/-- The `Engine` object from its construction on.  The three `unique_ptr`
members may be null: `m_Window` records whether a `Window` object is held, and
a null `m_Timer` or `m_Input` is `none`. -/
structure EngineObject where
  m_Window : Bool
  m_Timer : Option Timer
  m_Input : Option Input
  m_Running : Bool
  m_Accumulator : ℚ

/-- State left by the constructor `Engine::Engine`. -/
def EngineObject.init : EngineObject :=
  { m_Window := false, m_Timer := none, m_Input := none, m_Running := false,
    m_Accumulator := 0 }

/-- Embeds `Engine::Init`, with the platform's answers and the clock reading
taken by the `Timer` constructor: the value returned and the state left. -/
def EngineObject.Init (e : EngineObject) (p : Platform) (now : ℚ) : Bool × EngineObject :=
  let e1 := { e with m_Window := true }
  if !Window.Init p then (false, e1)
  else
    let input := Input.init
    let input := input.MapAction "Jump" [GLFW_KEY_SPACE] []
    let input := input.MapAction "MoveLeft" [GLFW_KEY_A, GLFW_KEY_LEFT] []
    let input := input.MapAction "MoveRight" [GLFW_KEY_D, GLFW_KEY_RIGHT] []
    let input := input.MapAction "Crouch" [GLFW_KEY_S, GLFW_KEY_DOWN] []
    let input := input.MapAction "Run" [GLFW_KEY_LEFT_SHIFT] []
    (true, { e1 with m_Timer := some (Timer.init now), m_Input := some input,
                     m_Running := true })

/-- The number of times `Engine::Run` executes the body of its loop over the
frames the platform supplies. -/
def Engine.iterations : Engine → List Frame → Nat
  | _, [] => 0
  | e, f :: fs => if e.m_Running then Engine.iterations (e.loopBody f) fs + 1 else 0

/-- Embeds `Engine::Run` on the engine object: the state left and the number
of loop iterations executed; `none` when the loop would dereference a null
`m_Timer` or `m_Input`. -/
def EngineObject.Run (e : EngineObject) (frames : List Frame) : Option (EngineObject × Nat) :=
  if e.m_Running then
    match e.m_Timer, e.m_Input with
    | some timer, some input =>
      let start : Engine :=
        { m_Timer := timer, m_Input := input, m_Running := true,
          m_Accumulator := e.m_Accumulator, fixedUpdates := 0 }
      let stop := Engine.Run start frames
      some ({ e with m_Timer := some stop.m_Timer, m_Input := some stop.m_Input,
                     m_Running := stop.m_Running, m_Accumulator := stop.m_Accumulator },
        Engine.iterations start frames)
    | _, _ => none
  else some (e, 0)

/-! ## Single-instance bookkeeping of `Input` (`Input.cpp` 6-19, `Input.hpp` 38-39, `Debug.hpp`) -/

/-- The process-wide state around `class Input`: the address held by the
static pointer `s_Instance` (`none` for `nullptr`) and the addresses of the
`Input` objects alive. -/
structure InputStatics where
  s_Instance : Option Nat
  live : List Nat

/-- The state at program start: `Input* Input::s_Instance = nullptr;`. -/
def InputStatics.start : InputStatics :=
  { s_Instance := none, live := [] }

/-- Embeds `ASSERT(condition, message)`: with `NDEBUG` it expands to nothing;
otherwise a false condition reaches `Debug::HandleAssertionFailure`, recorded by
its message. -/
def ASSERT (ndebug : Bool) (condition : Bool) (message : String) : List String :=
  if ndebug then [] else if condition then [] else [message]

/-- The bookkeeping part of the constructor `Input::Input` for the object at
address `this`: the assertions that failed, and the state left by
`s_Instance = this`. -/
def InputStatics.construct (ndebug : Bool) (w : InputStatics) (this : Nat)
    (windowIsNull : Bool) : List String × InputStatics :=
  let failed :=
    ASSERT ndebug (!windowIsNull) "Window cannot be null" ++
      ASSERT ndebug (w.s_Instance == none) "Input system already exists"
  (failed, { s_Instance := some this, live := this :: w.live })

/-- Embeds `~Input() = default` for the object at address `this`: the object
goes away and no static member is written. -/
def InputStatics.destroy (w : InputStatics) (this : Nat) : InputStatics :=
  { w with live := w.live.erase this }

/-! ## Resource cache (`ResourceManager.hpp`) -/

/-- Embeds `enum class LogLevel`. -/
inductive LogLevel where
  | Trace
  | Info
  | Warning
  | Error
  | Critical
  deriving DecidableEq, Repr

/-- What `std::make_shared<T>()` followed by `resource->loadFromFile(path)`
does: it returns `true`, returns `false`, throws a `std::exception` with the
given `what()`, or throws something else. -/
inductive LoadOutcome where
  | loaded
  | failed
  | stdException (what : String)
  | otherException
  deriving DecidableEq, Repr

/-- What a call of the resource cache does besides changing the store: it
runs the loader on a path, or hands a message to the logger. -/
inductive ResourceEvent where
  | loaderCalled (path : String)
  | log (level : LogLevel) (message : String)
  deriving DecidableEq, Repr

/-- The static member `resources<T>`, one map per resource type `T` (named by
a tag) from names to the address of the shared object. -/
structure ResourceManager where
  resources : String → List (String × Nat)

namespace ResourceManager

/-- The store at program start: every `resources<T>` is empty. -/
def start : ResourceManager :=
  { resources := fun _ => [] }

/-- The assignment `resources<T>[name] = resource` on one map. -/
def assignResource (name : String) (resource : Nat) : List (String × Nat) → List (String × Nat)
  | [] => [(name, resource)]
  | (n, r) :: rest =>
    if name == n then (n, resource) :: rest else (n, r) :: assignResource name resource rest

/-- The calls `find(name)` and `erase(it)` on one map. -/
def eraseResource (name : String) : List (String × Nat) → List (String × Nat)
  | [] => []
  | (n, r) :: rest => if name == n then rest else (n, r) :: eraseResource name rest

/-- Embeds `ResourceManager::hasResource<T>`. -/
def hasResource (m : ResourceManager) (T name : String) : Bool :=
  (m.resources T).lookup name != none

/-- Embeds `ResourceManager::loadResource<T>`, with the address `resource` of
the object `std::make_shared<T>()` creates and the behaviour `loadFromFile` of
the loader: the store left (`none` when an exception leaves the function) and
what the call did besides. -/
def loadResource (m : ResourceManager) (T name path : String) (resource : Nat)
    (loadFromFile : String → LoadOutcome) : Option ResourceManager × List ResourceEvent :=
  if (m.resources T).lookup name != none then
    (some m, [ResourceEvent.log LogLevel.Warning
      ("Resource \x27" ++ name ++ "\x27 already exists. Skipping load.")])
  else
    match loadFromFile path with
    | LoadOutcome.loaded =>
      (some { resources :=
          Function.update m.resources T (assignResource name resource (m.resources T)) },
        [ResourceEvent.loaderCalled path,
          ResourceEvent.log LogLevel.Info ("Successfully loaded resource: " ++ name)])
    | LoadOutcome.failed =>
      (some m, [ResourceEvent.loaderCalled path,
        ResourceEvent.log LogLevel.Error ("Failed to load resource: " ++ name)])
    | LoadOutcome.stdException what =>
      (some m, [ResourceEvent.loaderCalled path,
        ResourceEvent.log LogLevel.Error
          ("Exception while loading resource \x27" ++ name ++ "\x27: " ++ what)])
    | LoadOutcome.otherException => (none, [ResourceEvent.loaderCalled path])

/-- Embeds `ResourceManager::getResource<T>`: the pointer returned (`none` for
`nullptr`) and what the call did besides. -/
def getResource (m : ResourceManager) (T name : String) : Option Nat × List ResourceEvent :=
  match (m.resources T).lookup name with
  | none =>
    (none, [ResourceEvent.log LogLevel.Warning ("Resource \x27" ++ name ++ "\x27 not found.")])
  | some resource => (some resource, [])

/-- Embeds `ResourceManager::removeResource<T>`. -/
def removeResource (m : ResourceManager) (T name : String) :
    ResourceManager × List ResourceEvent :=
  if (m.resources T).lookup name != none then
    ({ resources := Function.update m.resources T (eraseResource name (m.resources T)) },
      [ResourceEvent.log LogLevel.Info ("Resource removed: " ++ name)])
  else (m, [])

/-- Embeds `ResourceManager::clearResources<T>`. -/
def clearResources (m : ResourceManager) (T : String) : ResourceManager × List ResourceEvent :=
  ({ resources := Function.update m.resources T [] },
    [ResourceEvent.log LogLevel.Info "Cleared all resources of specified type"])

/-- Embeds `ResourceManager::clearAllResources`, whose body is the comment
"Implementation will be added as we add specific resource types" and one log
call. -/
def clearAllResources (m : ResourceManager) : ResourceManager × List ResourceEvent :=
  (m, [ResourceEvent.log LogLevel.Info "Cleared all resources"])

end ResourceManager

/-! ## Vertex and mesh (`Vertex.hpp`, `Mesh.hpp`, `Mesh.cpp`) -/

/-- Embeds `glm::vec2`; components are exact rationals. -/
structure Vec2 where
  x : ℚ
  y : ℚ
  deriving DecidableEq

/-- Embeds `glm::vec3`. -/
structure Vec3 where
  x : ℚ
  y : ℚ
  z : ℚ
  deriving DecidableEq

/-- Embeds `glm::vec4`. -/
structure Vec4 where
  x : ℚ
  y : ℚ
  z : ℚ
  w : ℚ
  deriving DecidableEq

/-- Embeds `struct Vertex`. -/
structure Vertex where
  Position : Vec3
  TexCoords : Vec2
  Color : Vec4
  deriving DecidableEq

/-- What a default-constructed GLM vector of each size holds.  GLM fills it
with zeros (before 0.9.9, or with `GLM_FORCE_CTOR_INIT`) or leaves it unset,
in which case it holds whatever the storage held. -/
structure GlmDefault where
  vec2 : Vec2
  vec3 : Vec3
  vec4 : Vec4

/-- A GLM whose default constructors fill with zeros. -/
def GlmDefault.zeros : GlmDefault :=
  { vec2 := ⟨0, 0⟩, vec3 := ⟨0, 0, 0⟩, vec4 := ⟨0, 0, 0, 0⟩ }

/-- Embeds `Vertex() = default;`: every member is default-constructed. -/
def Vertex.default (glm : GlmDefault) : Vertex :=
  { Position := glm.vec3, TexCoords := glm.vec2, Color := glm.vec4 }

/-- Embeds the constructor `Vertex(position, texCoords = glm::vec2(0.0f),
color = glm::vec4(1.0f))`; an omitted argument is `none`. -/
def Vertex.new (position : Vec3) (texCoords : Option Vec2) (color : Option Vec4) : Vertex :=
  { Position := position,
    TexCoords := texCoords.getD ⟨0, 0⟩,
    Color := color.getD ⟨1, 1, 1, 1⟩ }

/-- The object names OpenGL writes for `glGenVertexArrays(1, &m_VAO)`,
`glGenBuffers(1, &m_VBO)` and `glGenBuffers(1, &m_EBO)`: non-zero names when
the call succeeds, `0` (the member left as it was) when it does not. -/
structure GlNames where
  vao : Nat
  vbo : Nat
  ebo : Nat

/-- The data members of `class Mesh`. -/
structure Mesh where
  m_Vertices : List Vertex
  m_Indices : List Nat
  m_VAO : Nat
  m_VBO : Nat
  m_EBO : Nat

/-- Embeds `Mesh::SetupMesh`: the three names are generated; the uploads and
attribute calls that follow write no member. -/
def Mesh.SetupMesh (m : Mesh) (gl : GlNames) : Mesh :=
  { m with
    m_VAO := if gl.vao = 0 then m.m_VAO else gl.vao,
    m_VBO := if gl.vbo = 0 then m.m_VBO else gl.vbo,
    m_EBO := if gl.ebo = 0 then m.m_EBO else gl.ebo }

/-- Embeds the constructor `Mesh::Mesh(vertices, indices)`. -/
def Mesh.new (vertices : List Vertex) (indices : List Nat) (gl : GlNames) : Mesh :=
  Mesh.SetupMesh
    { m_Vertices := vertices, m_Indices := indices, m_VAO := 0, m_VBO := 0, m_EBO := 0 } gl

/-- Embeds `Mesh::IsValid`. -/
def Mesh.IsValid (m : Mesh) : Bool :=
  m.m_VAO != 0

/-- Embeds `Mesh::GetVertexCount`. -/
def Mesh.GetVertexCount (m : Mesh) : Nat :=
  m.m_Vertices.length

/-- Embeds `Mesh::GetIndexCount`. -/
def Mesh.GetIndexCount (m : Mesh) : Nat :=
  m.m_Indices.length

/-! ## Logger (`Logger.hpp`, `Logger.cpp`) -/

/-- The two-character placeholder that `FormatString` searches for. -/
def placeholder : List Char := [Char.ofNat 123, Char.ofNat 125]

/-- Embeds `fmt.find(..)` for the placeholder: the least position at which it
occurs, `none` for `std::string::npos`. -/
def findPlaceholder : List Char → Option Nat
  | [] => none
  | [_] => none
  | c :: d :: rest =>
    if c = Char.ofNat 123 ∧ d = Char.ofNat 125 then some 0
    else (findPlaceholder (d :: rest)).map (· + 1)

/-- Embeds the three overloads of `Logger::FormatString`: the text written to
the stream for a format string and the arguments, each argument given as the
text `operator<<` writes for it. -/
def FormatString : List Char → List (List Char) → List Char
  | fmt, [] => fmt
  | fmt, [value] =>
    match findPlaceholder fmt with
    | some pos => fmt.take pos ++ value ++ fmt.drop (pos + 2)
    | none => fmt
  | fmt, value :: arg :: args =>
    match findPlaceholder fmt with
    | some pos => fmt.take pos ++ value ++ FormatString (fmt.drop (pos + 2)) (arg :: args)
    | none => fmt

/-- Embeds `Logger::Log` with `Logger::LogMessage`: the lines written (level
and message, the timestamp left out), none when the logger is not
initialised. -/
def Logger.Log (s_Initialized : Bool) (level : LogLevel) (fmt : List Char)
    (args : List (List Char)) : List (LogLevel × List Char) :=
  if !s_Initialized then [] else [(level, FormatString fmt args)]

/-! ## Definitions used to state the properties -/

/-- Whether an event is a key event for `key`. -/
def Event.targetsKey (key : Int) : Event → Bool
  | Event.key k _ => decide (k = key)
  | _ => false

/-- Whether an event is a mouse-button event for `button`. -/
def Event.targetsButton (button : Int) : Event → Bool
  | Event.mouseButton b _ => decide (b = button)
  | _ => false

/-- The per-tick advance transition as the specification words it:
`Pressed → Held`; `JustReleased → Released`; all other states unchanged. -/
def tickAdvance : KeyState → KeyState
  | KeyState.Pressed => KeyState.Held
  | KeyState.JustReleased => KeyState.Released
  | KeyState.Held => KeyState.Held
  | KeyState.Released => KeyState.Released

/-- Whether some bound key or mouse button of `action` answers pressed or held
in state `s`. -/
def anyBoundDown (s : Input) (action : InputAction) : Bool :=
  action.keys.any (fun key => s.IsKeyPressed key || s.IsKeyHeld key) ||
    action.mouseButtons.any
      (fun button => s.IsMouseButtonPressed button || s.IsMouseButtonHeld button)

/-- Whether an event is a scroll event. -/
def Event.isScroll : Event → Bool
  | Event.scroll _ _ => true
  | _ => false

/-- The invariant of `std::unordered_map`: no two entries of the action table
have the same key. -/
def actionNamesUnique (s : Input) : Prop :=
  (s.m_Actions.map Prod.fst).Nodup

/-- One use of the `Input` instance: a call of one of its state-changing
public member functions, or the delivery of a device event. -/
inductive Op where
  | update
  | event (e : Event)
  | getMouseDelta
  | mapAction (name : String) (keys mouseButtons : List Int)
  | unmapAction (name : String)
  | bindActionCallback (name : String) (callback : Option Nat)

/-- The state after one use of the instance, and the callbacks it invoked. -/
def applyOp (s : Input) : Op → Input × List Nat
  | Op.update => s.Update
  | Op.event e => (deliver s e, [])
  | Op.getMouseDelta => (s.GetMouseDelta.2, [])
  | Op.mapAction name keys mouseButtons => (s.MapAction name keys mouseButtons, [])
  | Op.unmapAction name => (s.UnmapAction name, [])
  | Op.bindActionCallback name callback => (s.BindActionCallback name callback, [])

/-- The state after a sequence of uses, and the callbacks invoked, in order. -/
def applyOps : Input → List Op → Input × List Nat
  | s, [] => (s, [])
  | s, op :: ops =>
    let r := applyOp s op
    let rs := applyOps r.1 ops
    (rs.1, r.2 ++ rs.2)

/-- Whether a use is `MapAction` for `name`. -/
def Op.mapsName (name : String) : Op → Bool
  | Op.mapAction n _ _ => decide (n = name)
  | _ => false

/-- Whether a use changes the bindings of the action table (`MapAction`,
`UnmapAction` or `BindActionCallback`). -/
def Op.rebinds : Op → Bool
  | Op.mapAction _ _ _ => true
  | Op.unmapAction _ => true
  | Op.bindActionCallback _ _ => true
  | _ => false

/-- Whether a use is the delivery of a cursor-movement event. -/
def Op.isCursorEvent : Op → Bool
  | Op.event (Event.cursorPos _ _) => true
  | _ => false

/-- Whether a use is the delivery of a device event. -/
def Op.isEvent : Op → Bool
  | Op.event _ => true
  | _ => false

/-- The pieces of a format string between the occurrences of the placeholder,
found from left to right; a string with `k` occurrences has `k + 1` pieces. -/
def splitPlaceholders : List Char → List (List Char)
  | [] => [[]]
  | [c] => [[c]]
  | c :: d :: rest =>
    if c = Char.ofNat 123 ∧ d = Char.ofNat 125 then [] :: splitPlaceholders rest
    else
      match splitPlaceholders (d :: rest) with
      | [] => [[c]]
      | p :: ps => (c :: p) :: ps

/-- The number of occurrences of the placeholder in a format string. -/
def countPlaceholders (fmt : List Char) : Nat :=
  (splitPlaceholders fmt).length - 1

/-- The pieces joined again, each of the first placeholders replaced by the
next argument while arguments remain, the other placeholders kept. -/
def fillPlaceholders : List (List Char) → List (List Char) → List Char
  | [], _ => []
  | [p], _ => p
  | p :: q :: ps, [] => p ++ placeholder ++ fillPlaceholders (q :: ps) []
  | p :: q :: ps, a :: args => p ++ a ++ fillPlaceholders (q :: ps) args

/-- The slot `m_KeyStates[GLFW_KEY_LAST]`, the last one of the key table. -/
def lastKeySlot : Fin (GLFW_KEY_LAST + 1) :=
  ⟨GLFW_KEY_LAST, by omega⟩

/-- No key and no mouse button is in a transient state (`Pressed` or
`JustReleased`) and the scroll delta is zero. -/
def Input.settled (s : Input) : Prop :=
  (∀ i, s.m_KeyStates i ≠ KeyState.Pressed ∧ s.m_KeyStates i ≠ KeyState.JustReleased) ∧
  (∀ j, s.m_MouseButtonStates j ≠ KeyState.Pressed ∧
    s.m_MouseButtonStates j ≠ KeyState.JustReleased) ∧
  s.m_MouseScrollDelta = 0

/-- The action found under `name`, if any, is bound to the key
`GLFW_KEY_LAST` alone and is inactive. -/
def boundToLastKeyOnly (s : Input) (name : String) : Prop :=
  ∀ a, s.m_Actions.lookup name = some a →
    a.keys = [(GLFW_KEY_LAST : Int)] ∧ a.mouseButtons = [] ∧ a.isActive = false

/-- The format string of the log call `JUMP started` in `Engine::Update`,
which holds the text `:.1f` between its braces. -/
def jumpFormat : List Char :=
  ">>> JUMP started! Initial velocity: \x7b:.1f\x7d".toList

/-- The format string of the log call in `Window::Init`, with two
placeholders. -/
def windowFormat : List Char :=
  "Window created successfully: \x7b\x7dx\x7b\x7d".toList

/-- The loader of `TestResource`: it succeeds exactly for the file the test
fixture creates. -/
def testLoader (path : String) : LoadOutcome :=
  if path = "test_resource.txt" then LoadOutcome.loaded else LoadOutcome.failed

/-- The store after `loadResource<TestResource>("test1", "test_resource.txt")`
from the empty store, the object created at address 1. -/
def testStore : ResourceManager :=
  ((ResourceManager.start.loadResource "TestResource" "test1" "test_resource.txt" 1
    testLoader).1).getD ResourceManager.start

/-- The binary64 number nearest to `0.05`, which is `0x1.999999999999ap-5`. -/
def twentieth : Nat := roundBinary64 (5 * binary64One) 100

/-- A `Jump` action bound to the space bar (32), to `A` (65) and to the left
mouse button (0), with callback 7 and a stale activation flag. -/
def jumpAction : InputAction := ⟨"Jump", [32, 65], [0], some 7, true⟩

/-- An input state with `jumpAction` mapped, and space and `A` pressed. -/
def spaceDown : Input :=
  { (Input.init.KeyCallback 32 GLFW_PRESS).KeyCallback 65 GLFW_PRESS with
    m_Actions := [("Jump", jumpAction)] }

/-! ## Properties of the fixed-step scheduler -/

theorem FIXED_TIME_STEP_pos : 0 < FIXED_TIME_STEP := by
  norm_num [FIXED_TIME_STEP]

theorem drain_of_le (acc : ℚ) (calls : Nat) (h : FIXED_TIME_STEP ≤ acc) :
    drain acc calls = drain (acc - FIXED_TIME_STEP) (calls + 1) := by
  rw [drain, if_pos h]

theorem drain_of_lt (acc : ℚ) (calls : Nat) (h : acc < FIXED_TIME_STEP) :
    drain acc calls = (acc, calls) := by
  rw [drain, if_neg (not_le.2 h)]

/-- What the drain loop computes in exact arithmetic: the accumulator ends in
`[0, FIXED_TIME_STEP)`, and `FixedUpdate` is invoked `⌊acc / FIXED_TIME_STEP⌋`
more times. -/
theorem drain_spec (acc : ℚ) (calls : Nat) (h : 0 ≤ acc) :
    0 ≤ (drain acc calls).1 ∧ (drain acc calls).1 < FIXED_TIME_STEP ∧
      ((drain acc calls).2 : ℤ) = calls + ⌊acc / FIXED_TIME_STEP⌋ := by
  induction acc, calls using drain.induct with
  | case1 acc calls hge ih =>
    have hpos := FIXED_TIME_STEP_pos
    have h1 : (acc - FIXED_TIME_STEP) / FIXED_TIME_STEP = acc / FIXED_TIME_STEP - 1 := by
      field_simp
    have ih1 := ih (by linarith)
    rw [drain_of_le acc calls hge]
    rw [h1, Int.floor_sub_one] at ih1
    refine ⟨ih1.1, ih1.2.1, ?_⟩
    rw [ih1.2.2]; push_cast; ring
  | case2 acc calls hlt =>
    have hpos := FIXED_TIME_STEP_pos
    rw [drain_of_lt acc calls (lt_of_not_le hlt)]
    have hfl : ⌊acc / FIXED_TIME_STEP⌋ = 0 := by
      rw [Int.floor_eq_iff]
      refine ⟨by simpa using div_nonneg h hpos.le, ?_⟩
      simp only [Int.cast_zero, zero_add]
      rw [div_lt_one hpos]
      exact lt_of_not_le hlt
    simp [hfl, h, lt_of_not_le hlt]

theorem accumulatorAfter_bound (deltas : List ℚ) : ∀ a : ℚ, 0 ≤ a → a < FIXED_TIME_STEP →
    (∀ x ∈ deltas, 0 ≤ x) →
    0 ≤ accumulatorAfter a deltas ∧ accumulatorAfter a deltas < FIXED_TIME_STEP := by
  induction deltas with
  | nil => intro a h0 h1 _; exact ⟨h0, h1⟩
  | cons d ds ih =>
    intro a h0 _ hds
    have hd : 0 ≤ d := hds d (List.mem_cons_self _ _)
    have hstep := drain_spec (a + d) 0 (by linarith)
    exact ih (fixedTimestep a d).1 hstep.1 hstep.2.1
      (fun x hx => hds x (List.mem_cons_of_mem _ hx))

/-! ### The scheduler under binary64 rounding -/

theorem bitLengthAux_le (fuel : Nat) : ∀ n k : Nat, n < 2 ^ k → bitLengthAux fuel n ≤ k := by
  induction fuel with
  | zero => intro n k _; simp [bitLengthAux]
  | succ fuel ih =>
    intro n k h
    unfold bitLengthAux
    split
    · omega
    · rename_i hn
      cases k with
      | zero => simp at h; omega
      | succ k =>
        have : n / 2 < 2 ^ k := by
          rw [Nat.div_lt_iff_lt_mul (by norm_num)]
          rw [pow_succ] at h
          exact h
        have := ih (n / 2) k this
        omega

theorem roundHalfEven_mul_le (n d : Nat) : 2 * (roundHalfEven n d * d) ≤ 2 * n + d := by
  have h1 : d * (n / d) + n % d = n := Nat.div_add_mod n d
  have h2 : n / d * d = d * (n / d) := Nat.mul_comm _ _
  unfold roundHalfEven
  simp only
  split_ifs <;> (try rw [Nat.add_mul]) <;> omega

/-- Rounding to binary64 raises a value below `2^(k+53)` units by at most
half of `2^k` units. -/
theorem roundBinary64_le (y k : Nat) (hy : y < 2 ^ (k + 53)) :
    2 * roundBinary64 y 1 ≤ 2 * y + 2 ^ k := by
  unfold roundBinary64
  simp only [Nat.div_one, Nat.one_mul]
  have hb : bitLength y ≤ k + 53 := bitLengthAux_le y y (k + 53) hy
  have hsh : 2 ^ (bitLength y - 53) ≤ 2 ^ k := Nat.pow_le_pow_right (by norm_num) (by omega)
  have := roundHalfEven_mul_le y (2 ^ (bitLength y - 53))
  omega

set_option exponentiation.threshold 2000 in
set_option maxRecDepth 100000 in
theorem FIXED_TIME_STEP_F64_eq : FIXED_TIME_STEP_F64 = 0x11111111111111 * 2 ^ 1016 := by
  decide

set_option exponentiation.threshold 2000 in
set_option maxRecDepth 100000 in
theorem twentieth_eq : twentieth = 0x1999999999999a * 2 ^ 1017 := by
  decide

set_option exponentiation.threshold 2000 in
theorem f64Sub_step_lt (acc : Nat) (h : acc < 2 ^ 1122) (hge : FIXED_TIME_STEP_F64 ≤ acc) :
    f64Sub acc FIXED_TIME_STEP_F64 < acc := by
  have h1 := roundBinary64_le (acc - FIXED_TIME_STEP_F64) 1069 (by omega)
  have h2 := FIXED_TIME_STEP_F64_eq
  unfold f64Sub
  omega

set_option exponentiation.threshold 2000 in
theorem drainF64_terminates (fuel : Nat) : ∀ acc calls : Nat, acc < 2 ^ 1122 → acc < fuel →
    ∃ r, drainF64 fuel acc calls = some r ∧ r.1 < FIXED_TIME_STEP_F64 := by
  induction fuel with
  | zero => intro acc calls _ h; omega
  | succ fuel ih =>
    intro acc calls hb hf
    by_cases hge : FIXED_TIME_STEP_F64 ≤ acc
    · have := f64Sub_step_lt acc hb hge
      rw [drainF64, if_pos hge]
      exact ih _ _ (by omega) (by omega)
    · rw [drainF64, if_neg hge]
      exact ⟨_, rfl, by simpa using hge⟩

set_option exponentiation.threshold 2000 in
/-- On binary64 values, from an accumulator below the step and a delta of at
most `2^46` seconds (`2^1120` units) the drain loop terminates with an
accumulator below the step (non-negative by representation). -/
theorem fixedTimestepF64_bound (a d : Nat) (ha : a < FIXED_TIME_STEP_F64) (hd : d ≤ 2 ^ 1120) :
    ∃ fuel r, fixedTimestepF64 fuel a d = some r ∧ r.1 < FIXED_TIME_STEP_F64 := by
  have h2 := FIXED_TIME_STEP_F64_eq
  have h1 := roundBinary64_le (a + d) 1068 (by omega)
  have hb : f64Add a d < 2 ^ 1122 := by unfold f64Add; omega
  obtain ⟨r, hr⟩ := drainF64_terminates (f64Add a d + 1) (f64Add a d) 0 hb (by omega)
  exact ⟨_, r, hr⟩

theorem roundHalfEven_mul_ge (n d : Nat) (hd : 0 < d) :
    2 * n ≤ 2 * (roundHalfEven n d * d) + d := by
  have h1 : d * (n / d) + n % d = n := Nat.div_add_mod n d
  have h2 : n / d * d = d * (n / d) := Nat.mul_comm _ _
  have h3 : n % d < d := Nat.mod_lt n hd
  unfold roundHalfEven
  simp only
  split_ifs <;> (try rw [Nat.add_mul]) <;> omega

/-- Rounding to binary64 lowers a value below `2^(k+53)` units by at most
half of `2^k` units. -/
theorem roundBinary64_ge (y k : Nat) (hy : y < 2 ^ (k + 53)) :
    2 * y ≤ 2 * roundBinary64 y 1 + 2 ^ k := by
  unfold roundBinary64
  simp only [Nat.div_one, Nat.one_mul]
  have hb : bitLength y ≤ k + 53 := bitLengthAux_le y y (k + 53) hy
  have hsh : 2 ^ (bitLength y - 53) ≤ 2 ^ k := Nat.pow_le_pow_right (by norm_num) (by omega)
  have := roundHalfEven_mul_ge y (2 ^ (bitLength y - 53)) (by positivity)
  omega

/-- More fuel does not change a result of the drain loop. -/
theorem drainF64_fuel (fuel : Nat) : ∀ (acc calls extra : Nat) (r : Nat × Nat),
    drainF64 fuel acc calls = some r → drainF64 (fuel + extra) acc calls = some r := by
  induction fuel with
  | zero => intro acc calls extra r h; simp [drainF64] at h
  | succ fuel ih =>
    intro acc calls extra r h
    rw [Nat.add_right_comm]
    by_cases hge : FIXED_TIME_STEP_F64 ≤ acc
    · rw [drainF64, if_pos hge] at h ⊢
      exact ih _ _ extra r h
    · rw [drainF64, if_neg hge] at h ⊢
      exact h

set_option exponentiation.threshold 2000 in
/-- The drain loop on binary64 values from an accumulator below
`2^(k+53)` units plus one step, `k ≤ 1067`: it ends below the step after `n`
more calls, and the `n` steps taken off differ from the decrease of the
accumulator by at most `n` half-units of `2^k`. -/
theorem drainF64_count (k : Nat) (hk : k ≤ 1067) (fuel : Nat) : ∀ acc calls : Nat,
    acc < 2 ^ (k + 53) + FIXED_TIME_STEP_F64 → acc < fuel →
    ∃ r n : Nat, drainF64 fuel acc calls = some (r, calls + n) ∧ r < FIXED_TIME_STEP_F64 ∧
      (n = 0 ↔ acc < FIXED_TIME_STEP_F64) ∧
      2 * r + 2 * (n * FIXED_TIME_STEP_F64) ≤ 2 * acc + n * 2 ^ k ∧
      2 * acc ≤ 2 * r + 2 * (n * FIXED_TIME_STEP_F64) + n * 2 ^ k := by
  have hP : 2 ^ k ≤ 2 ^ 1067 := Nat.pow_le_pow_right (by norm_num) hk
  have h2 := FIXED_TIME_STEP_F64_eq
  induction fuel with
  | zero => intro acc calls _ h; omega
  | succ fuel ih =>
    intro acc calls hb hf
    by_cases hge : FIXED_TIME_STEP_F64 ≤ acc
    · have hle := roundBinary64_le (acc - FIXED_TIME_STEP_F64) k (by omega)
      have hge2 := roundBinary64_ge (acc - FIXED_TIME_STEP_F64) k (by omega)
      have hlt : f64Sub acc FIXED_TIME_STEP_F64 < acc := by unfold f64Sub; omega
      have hb2 : f64Sub acc FIXED_TIME_STEP_F64 < 2 ^ (k + 53) + FIXED_TIME_STEP_F64 := by
        unfold f64Sub; omega
      obtain ⟨r, n, hr, hr1, _, hr2, hr3⟩ := ih (f64Sub acc FIXED_TIME_STEP_F64) (calls + 1) hb2
        (by omega)
      refine ⟨r, n + 1, ?_, hr1, ?_, ?_, ?_⟩
      · rw [drainF64, if_pos hge, hr]
        simp only [Nat.add_assoc, Nat.add_comm 1 n]
      · constructor
        · intro h; omega
        · intro h; omega
      · unfold f64Sub at hr2 hr3
        rw [Nat.add_mul, Nat.add_mul, Nat.one_mul, Nat.one_mul]
        omega
      · unfold f64Sub at hr2 hr3
        rw [Nat.add_mul, Nat.add_mul, Nat.one_mul, Nat.one_mul]
        omega
    · refine ⟨acc, 0, ?_, by omega, ?_, by omega, by omega⟩
      · rw [drainF64, if_neg hge]; rfl
      · constructor
        · intro _; omega
        · intro _; rfl

set_option exponentiation.threshold 2000 in
/-- Arithmetic of the accumulated rounding error: if `n` steps `T` were taken
off `S` with an error of at most `(n + 1) * P / 2`, leaving less than `T`,
and `P` is small against `T`, then `n` is within one of `S / T`, and equal to
it when `S % T` is further than the error from both ends of `[0, T)`. -/
theorem count_within_one (S acc n q m P T : Nat) (hT : 2 ^ 1068 ≤ T) (hP : P ≤ 2 ^ 1040)
    (hS : S < P * 2 ^ 53) (hacc : acc < T) (hdiv : q * T + m = S) (hm : m < T)
    (hup : 2 * acc + 2 * (n * T) ≤ 2 * S + (n + 1) * P)
    (hlow : 2 * S ≤ 2 * acc + 2 * (n * T) + (n + 1) * P) :
    n ≤ q + 1 ∧ q ≤ n + 1 ∧ ((q + 2) * P ≤ 2 * m → 2 * m + (q + 2) * P < 2 * T → n = q) := by
  rw [Nat.add_mul, Nat.one_mul] at hup hlow
  have hnT : n * 2 ^ 1068 ≤ n * T := Nat.mul_le_mul_left n hT
  have hnP : n * P ≤ n * 2 ^ 1040 := Nat.mul_le_mul_left n hP
  have hn : n + 1 ≤ 2 ^ 26 := by omega
  have hE : (n + 1) * P ≤ 2 ^ 26 * P := Nat.mul_le_mul_right _ hn
  rw [Nat.add_mul, Nat.one_mul] at hE
  have hn1 : n ≤ q + 1 := by
    by_contra hc
    have h1 : (q + 2) * T ≤ n * T := Nat.mul_le_mul_right T (by omega)
    rw [Nat.add_mul] at h1
    omega
  have hn2 : q ≤ n + 1 := by
    by_contra hc
    have h1 : (n + 2) * T ≤ q * T := Nat.mul_le_mul_right T (by omega)
    rw [Nat.add_mul] at h1
    omega
  refine ⟨hn1, hn2, ?_⟩
  intro hm1 hm2
  rw [Nat.add_mul] at hm1 hm2
  rcases Nat.lt_trichotomy n q with hlt | heq | hgt
  · have hq : q = n + 1 := by omega
    have h1 : q * T = n * T + T := by rw [hq, Nat.add_mul, Nat.one_mul]
    have h2 : q * P = n * P + P := by rw [hq, Nat.add_mul, Nat.one_mul]
    omega
  · exact heq
  · have hq : n = q + 1 := by omega
    have h1 : n * T = q * T + T := by rw [hq, Nat.add_mul, Nat.one_mul]
    have h2 : n * P = q * P + P := by rw [hq, Nat.add_mul, Nat.one_mul]
    omega

theorem scenario_exact : fixedTimestep 0 (1 / 20) = (0, 3) := by
  have h1 : FIXED_TIME_STEP ≤ (0 : ℚ) + 1 / 20 := by norm_num [FIXED_TIME_STEP]
  have h2 : FIXED_TIME_STEP ≤ (0 : ℚ) + 1 / 20 - FIXED_TIME_STEP := by
    norm_num [FIXED_TIME_STEP]
  have h3 : FIXED_TIME_STEP ≤ (0 : ℚ) + 1 / 20 - FIXED_TIME_STEP - FIXED_TIME_STEP := by
    norm_num [FIXED_TIME_STEP]
  have h4 : (0 : ℚ) + 1 / 20 - FIXED_TIME_STEP - FIXED_TIME_STEP - FIXED_TIME_STEP
      < FIXED_TIME_STEP := by
    norm_num [FIXED_TIME_STEP]
  unfold fixedTimestep
  rw [drain_of_le _ _ h1, drain_of_le _ _ h2, drain_of_le _ _ h3, drain_of_lt _ _ h4]
  norm_num [FIXED_TIME_STEP]

set_option exponentiation.threshold 2000 in
set_option maxRecDepth 100000 in
theorem scenario_binary64 : fixedTimestepF64 10 0 twentieth = some (2 ^ 1017, 3) := by
  decide

/-- C1: if the accumulator is in `[0, FIXED_TIME_STEP)` and the frame delta is
non-negative, the accumulator is again in `[0, FIXED_TIME_STEP)` after
`m_Accumulator += deltaTime` and the drain loop; starting from accumulator
`0` the bound holds after every frame of any sequence of non-negative deltas;
the accumulator that one iteration of `Engine::Run` leaves is the one computed
from the timer's delta; and the bound also holds on binary64 values for every
delta up to `2^46` seconds. -/
theorem accumulator_bound (a d : ℚ) (deltas : List ℚ) (e : Engine) (f : Frame) (a64 d64 : Nat)
    (ha0 : 0 ≤ a) (_ha : a < FIXED_TIME_STEP) (hd : 0 ≤ d) (hds : ∀ x ∈ deltas, 0 ≤ x)
    (ha64 : a64 < FIXED_TIME_STEP_F64) (hd64 : d64 ≤ 2 ^ 1120) :
    (0 ≤ (fixedTimestep a d).1 ∧ (fixedTimestep a d).1 < FIXED_TIME_STEP) ∧
    (∀ n : Nat, 0 ≤ accumulatorAfter 0 (deltas.take n) ∧
      accumulatorAfter 0 (deltas.take n) < FIXED_TIME_STEP) ∧
    (e.loopBody f).m_Accumulator =
      (fixedTimestep e.m_Accumulator (f.now - e.m_Timer.m_LastUpdate)).1 ∧
    (∃ fuel r, fixedTimestepF64 fuel a64 d64 = some r ∧ r.1 < FIXED_TIME_STEP_F64) := by
  refine ⟨?_, ?_, rfl, fixedTimestepF64_bound a64 d64 ha64 hd64⟩
  · have := drain_spec (a + d) 0 (by linarith)
    exact ⟨this.1, this.2.1⟩
  · intro n
    exact accumulatorAfter_bound (deltas.take n) 0 le_rfl FIXED_TIME_STEP_pos
      (fun x hx => hds x (List.mem_of_mem_take hx))

set_option exponentiation.threshold 2000 in
set_option maxRecDepth 100000 in
theorem accumulator_bound_witness :
    (0 ≤ (1 / 100 : ℚ) ∧ (1 / 100 : ℚ) < FIXED_TIME_STEP ∧ 0 ≤ (1 / 20 : ℚ)) ∧
    (0 < FIXED_TIME_STEP_F64 ∧ twentieth ≤ 2 ^ 1120) ∧
    (0 ≤ (fixedTimestep (1 / 100) (1 / 20)).1 ∧
      (fixedTimestep (1 / 100) (1 / 20)).1 < FIXED_TIME_STEP) :=
  ⟨⟨by norm_num, by norm_num [FIXED_TIME_STEP], by norm_num⟩, ⟨by decide, by decide⟩,
    (accumulator_bound (1 / 100) (1 / 20) [1 / 20, 1 / 100]
      ⟨⟨0, 0, 0⟩, Input.init, true, 0, 0⟩ ⟨1, [], false⟩ 0 twentieth
      (by norm_num) (by norm_num [FIXED_TIME_STEP]) (by norm_num)
      (by intro x hx; simp at hx; rcases hx with h | h <;> rw [h] <;> norm_num)
      (by decide) (by decide)).1⟩

/-- Over exact numbers, for every accumulator `a ≥ 0` and delta `d ≥ 0` the
drain loop terminates (`fixedTimestep` is a total function) and invokes
`FixedUpdate` exactly `⌊(a + d) / FIXED_TIME_STEP⌋` times. -/
theorem fixedUpdate_count_exact (a d : ℚ) (ha : 0 ≤ a) (hd : 0 ≤ d) :
    ((fixedTimestep a d).2 : ℤ) = ⌊(a + d) / FIXED_TIME_STEP⌋ := by
  have := (drain_spec (a + d) 0 (by linarith)).2.2
  simpa [fixedTimestep] using this

theorem fixedUpdate_count_exact_witness :
    (0 ≤ (1 / 100 : ℚ) ∧ 0 ≤ (1 / 20 : ℚ)) ∧
    ((fixedTimestep (1 / 100) (1 / 20)).2 : ℤ) = ⌊((1 / 100 : ℚ) + 1 / 20) / FIXED_TIME_STEP⌋ :=
  ⟨⟨by norm_num, by norm_num⟩,
    fixedUpdate_count_exact (1 / 100) (1 / 20) (by norm_num) (by norm_num)⟩

set_option exponentiation.threshold 2000 in
/-- C2 (as amended): on the binary64 values the code computes with, for every
accumulator `a` and delta `d` whose sum is below `2^(k+53)` units of `2^-1074`
seconds, `k ≤ 1067` (so for every sum up to `2^46` seconds), the drain loop
terminates: with any fuel above the rounded sum it returns the same
accumulator `acc`, below the step, and the same number `n` of `FixedUpdate`
calls.  No call is made exactly when the rounded sum is below the step.  The
`n` steps taken off differ from `a + d - acc` by at most `n + 1` half-units of
`2^k`, the rounding of the sum and of the `n` subtractions.  For sums below
`2^19` seconds (`k ≤ 1040`) the count `n` differs from
`⌊(a + d) / FIXED_TIME_STEP⌋` by at most one, and it equals that floor when the
remainder of `a + d` by the step is at least `(⌊(a + d) / FIXED_TIME_STEP⌋ + 2)`
half-units of `2^k` away from both `0` and the step. -/
theorem fixedUpdate_count_within_one (a d k : Nat) (hk : k ≤ 1067) (h : a + d < 2 ^ (k + 53)) :
    ∃ acc n : Nat,
      (∀ fuel, f64Add a d < fuel → fixedTimestepF64 fuel a d = some (acc, n)) ∧
      acc < FIXED_TIME_STEP_F64 ∧
      (n = 0 ↔ f64Add a d < FIXED_TIME_STEP_F64) ∧
      2 * acc + 2 * (n * FIXED_TIME_STEP_F64) ≤ 2 * (a + d) + (n + 1) * 2 ^ k ∧
      2 * (a + d) ≤ 2 * acc + 2 * (n * FIXED_TIME_STEP_F64) + (n + 1) * 2 ^ k ∧
      (k ≤ 1040 →
        n ≤ (a + d) / FIXED_TIME_STEP_F64 + 1 ∧ (a + d) / FIXED_TIME_STEP_F64 ≤ n + 1 ∧
        (((a + d) / FIXED_TIME_STEP_F64 + 2) * 2 ^ k ≤ 2 * ((a + d) % FIXED_TIME_STEP_F64) →
          2 * ((a + d) % FIXED_TIME_STEP_F64) + ((a + d) / FIXED_TIME_STEP_F64 + 2) * 2 ^ k
            < 2 * FIXED_TIME_STEP_F64 →
          n = (a + d) / FIXED_TIME_STEP_F64)) := by
  have hP : 2 ^ k ≤ 2 ^ 1067 := Nat.pow_le_pow_right (by norm_num) hk
  have hM : 2 ^ (k + 53) = 2 ^ k * 2 ^ 53 := pow_add 2 k 53
  have h2 := FIXED_TIME_STEP_F64_eq
  have hle := roundBinary64_le (a + d) k h
  have hge := roundBinary64_ge (a + d) k h
  obtain ⟨acc, n, hr, hacc, hzero, hup, hlow⟩ :=
    drainF64_count k hk (f64Add a d + 1) (f64Add a d) 0 (by unfold f64Add; omega) (by omega)
  rw [Nat.zero_add] at hr
  refine ⟨acc, n, ?_, hacc, hzero, ?_, ?_, ?_⟩
  · intro fuel hfuel
    obtain ⟨extra, rfl⟩ : ∃ extra, fuel = f64Add a d + 1 + extra := ⟨fuel - (f64Add a d + 1), by omega⟩
    exact drainF64_fuel _ _ _ extra _ hr
  · unfold f64Add at hup hlow
    rw [Nat.add_mul, Nat.one_mul]
    omega
  · unfold f64Add at hup hlow
    rw [Nat.add_mul, Nat.one_mul]
    omega
  · intro hk2
    have hP2 : 2 ^ k ≤ 2 ^ 1040 := Nat.pow_le_pow_right (by norm_num) hk2
    unfold f64Add at hup hlow
    have hdiv : (a + d) / FIXED_TIME_STEP_F64 * FIXED_TIME_STEP_F64
        + (a + d) % FIXED_TIME_STEP_F64 = a + d := by
      rw [Nat.mul_comm]; exact Nat.div_add_mod (a + d) FIXED_TIME_STEP_F64
    have hmod : (a + d) % FIXED_TIME_STEP_F64 < FIXED_TIME_STEP_F64 :=
      Nat.mod_lt _ (by omega)
    exact count_within_one (a + d) acc n _ _ (2 ^ k) FIXED_TIME_STEP_F64 (by omega) hP2
      (by omega) hacc hdiv hmod (by rw [Nat.add_mul, Nat.one_mul]; omega)
      (by rw [Nat.add_mul, Nat.one_mul]; omega)

set_option exponentiation.threshold 2000 in
set_option maxRecDepth 100000 in
theorem fixedUpdate_count_within_one_witness :
    (1022 ≤ 1067 ∧ 0 + binary64One < 2 ^ (1022 + 53)) ∧
    ∃ acc n : Nat,
      (∀ fuel, f64Add 0 binary64One < fuel →
        fixedTimestepF64 fuel 0 binary64One = some (acc, n)) ∧
      acc < FIXED_TIME_STEP_F64 ∧
      n ≤ (0 + binary64One) / FIXED_TIME_STEP_F64 + 1 ∧
      (0 + binary64One) / FIXED_TIME_STEP_F64 ≤ n + 1 :=
  ⟨⟨by decide, by decide⟩,
    (fixedUpdate_count_within_one 0 binary64One 1022 (by decide) (by decide)).elim
      (fun acc hx => hx.elim (fun n hn =>
        ⟨acc, n, hn.1, hn.2.1, (hn.2.2.2.2.2 (by decide)).1, (hn.2.2.2.2.2 (by decide)).2.1⟩))⟩

set_option exponentiation.threshold 2000 in
set_option maxRecDepth 100000 in
/-- C2 (counterexample): on binary64 values, from accumulator `0` and a delta
of exactly one second the drain loop invokes `FixedUpdate` 59 times, while
`⌊(a + d) / FIXED_TIME_STEP⌋` is 60. -/
theorem fixedUpdate_count_binary64_differs :
    (fixedTimestepF64 100 0 binary64One).map Prod.snd = some 59 ∧
      (0 + binary64One) / FIXED_TIME_STEP_F64 = 60 := by
  decide

set_option exponentiation.threshold 2000 in
/-- C3 (counterexample): a delta of `0.05` from accumulator `0` does not fire
2 fixed updates, neither in exact arithmetic nor on binary64 values. -/
theorem scenario_not_two_updates :
    (fixedTimestep 0 (1 / 20)).2 ≠ 2 ∧
      (fixedTimestepF64 10 0 twentieth).map Prod.snd ≠ some 2 := by
  rw [scenario_exact, scenario_binary64]
  exact ⟨by decide, by simp⟩

/-- C3 (as amended): a delta of `0.05` from accumulator `0` fires exactly 3
fixed updates; the accumulator is left at `0` in exact arithmetic and at
`2^-57` (about `6.9e-18`) on binary64 values. -/
theorem scenario_three_updates :
    fixedTimestep 0 (1 / 20) = (0, 3) ∧
      fixedTimestepF64 10 0 twentieth = some (2 ^ 1017, 3) :=
  ⟨scenario_exact, scenario_binary64⟩

/-! ## Properties of the device state tracker -/

theorem updateStateAt_apply {n : Nat} (t : Fin n → KeyState) (i j : Fin n) :
    Input.updateStateAt t i j = if j = i then tickAdvance (t i) else t j := by
  unfold Input.updateStateAt
  by_cases hji : j = i
  · subst hji
    cases h : t j <;> simp [h, tickAdvance]
  · cases h : t i <;> simp [h, hji, Function.update_noteq]

theorem updateStatesLoop_apply {n : Nat} (t : Fin n → KeyState) (k : Nat) (j : Fin n) :
    Input.updateStatesLoop t k j = if j.val < k then tickAdvance (t j) else t j := by
  induction k with
  | zero => simp [Input.updateStatesLoop]
  | succ k ih =>
    unfold Input.updateStatesLoop
    by_cases hk : k < n
    · rw [dif_pos hk, updateStateAt_apply]
      by_cases hj : j = ⟨k, hk⟩
      · subst hj
        simp [ih]
      · have hne : j.val ≠ k := fun h => hj (Fin.ext h)
        rw [if_neg hj, ih]
        by_cases hlt : j.val < k
        · simp [hlt, Nat.lt_succ_of_lt hlt]
        · have : ¬ j.val < k + 1 := by omega
          simp [hlt, this]
    · rw [dif_neg hk, ih]
      have h1 : j.val < k := by omega
      have h2 : j.val < k + 1 := by omega
      simp [h1, h2]

theorem updateStatesLoop_full {n : Nat} (t : Fin n → KeyState) :
    Input.updateStatesLoop t n = fun j => tickAdvance (t j) := by
  funext j
  rw [updateStatesLoop_apply]
  simp [j.isLt]

theorem Update_m_KeyStates (s : Input) :
    s.Update.1.m_KeyStates = fun i => tickAdvance (s.m_KeyStates i) := by
  simp [Input.Update, Input.UpdateActionStates, Input.UpdateMouseButtonStates,
    Input.UpdateKeyStates, updateStatesLoop_full]

theorem Update_m_MouseButtonStates (s : Input) :
    s.Update.1.m_MouseButtonStates = fun j => tickAdvance (s.m_MouseButtonStates j) := by
  simp [Input.Update, Input.UpdateActionStates, Input.UpdateMouseButtonStates,
    Input.UpdateKeyStates, updateStatesLoop_full]

theorem tickAdvance_idem (k : KeyState) : tickAdvance (tickAdvance k) = tickAdvance k := by
  cases k <;> rfl

theorem GetKeyState_eq (s : Input) (key : Int) (h : ¬ (key < 0 ∨ key ≥ GLFW_KEY_LAST)) :
    s.GetKeyState key = s.m_KeyStates (Input.keySlot key h) := by
  unfold Input.GetKeyState
  rw [dif_neg h]

theorem GetMouseButtonState_eq (s : Input) (button : Int) (h : sizeT button < MouseButtonCount) :
    s.GetMouseButtonState button = s.m_MouseButtonStates ⟨sizeT button, h⟩ := by
  have h1 : ¬ sizeT button ≥ MouseButtonCount := by omega
  unfold Input.GetMouseButtonState
  rw [dif_neg h1]

theorem sizeT_of_inRange (button : Int) (h : 0 ≤ button ∧ button < MouseButtonCount) :
    sizeT button = button.toNat := by
  have h5 : (MouseButtonCount : Int) = 5 := rfl
  unfold sizeT
  rw [Int.emod_eq_of_lt h.1 (by omega)]

theorem KeyCallback_m_KeyStates (s : Input) (key action : Int)
    (h : ¬ (key < 0 ∨ key ≥ GLFW_KEY_LAST)) :
    (s.KeyCallback key action).m_KeyStates =
      if action = GLFW_PRESS then Function.update s.m_KeyStates (Input.keySlot key h) KeyState.Pressed
      else if action = GLFW_RELEASE then
        Function.update s.m_KeyStates (Input.keySlot key h) KeyState.JustReleased
      else if action = GLFW_REPEAT then
        Function.update s.m_KeyStates (Input.keySlot key h) KeyState.Held
      else s.m_KeyStates := by
  have h1 : key ≥ 0 ∧ key < GLFW_KEY_LAST := by omega
  unfold Input.KeyCallback
  rw [dif_pos h1]
  split_ifs <;> rfl

theorem MouseButtonCallback_m_MouseButtonStates (s : Input) (button action : Int)
    (h : 0 ≤ button ∧ button < MouseButtonCount) :
    (s.MouseButtonCallback button action).m_MouseButtonStates =
      if action = GLFW_PRESS then
        Function.update s.m_MouseButtonStates ⟨button.toNat, by omega⟩ KeyState.Pressed
      else if action = GLFW_RELEASE then
        Function.update s.m_MouseButtonStates ⟨button.toNat, by omega⟩ KeyState.JustReleased
      else s.m_MouseButtonStates := by
  have h1 : button ≥ 0 ∧ button < MouseButtonCount := by omega
  unfold Input.MouseButtonCallback
  rw [dif_pos h1]
  split_ifs <;> rfl

/-- C4: one `Input::Update()` applies the per-tick advance to every slot of
the key table and of the mouse-button table; hence for an in-range id a
down-event followed by one `Update()` yields `Held` and an up-event followed
by one `Update()` yields `Released`. -/
theorem Update_advances_states (s : Input) (i : Fin (GLFW_KEY_LAST + 1))
    (j : Fin MouseButtonCount) (key button : Int)
    (hkey : 0 ≤ key ∧ key < GLFW_KEY_LAST) (hbutton : 0 ≤ button ∧ button < MouseButtonCount) :
    s.Update.1.m_KeyStates i = tickAdvance (s.m_KeyStates i) ∧
    s.Update.1.m_MouseButtonStates j = tickAdvance (s.m_MouseButtonStates j) ∧
    (s.KeyCallback key GLFW_PRESS).Update.1.GetKeyState key = KeyState.Held ∧
    (s.KeyCallback key GLFW_RELEASE).Update.1.GetKeyState key = KeyState.Released ∧
    (s.MouseButtonCallback button GLFW_PRESS).Update.1.GetMouseButtonState button
      = KeyState.Held ∧
    (s.MouseButtonCallback button GLFW_RELEASE).Update.1.GetMouseButtonState button
      = KeyState.Released := by
  have hk : ¬ (key < 0 ∨ key ≥ GLFW_KEY_LAST) := by omega
  have hb : sizeT button < MouseButtonCount := by
    rw [sizeT_of_inRange button hbutton]; omega
  have hidx : (⟨sizeT button, hb⟩ : Fin MouseButtonCount) = ⟨button.toNat, by omega⟩ :=
    Fin.ext (sizeT_of_inRange button hbutton)
  refine ⟨by rw [Update_m_KeyStates], by rw [Update_m_MouseButtonStates], ?_, ?_, ?_, ?_⟩
  · rw [GetKeyState_eq _ _ hk, Update_m_KeyStates, KeyCallback_m_KeyStates _ _ _ hk]
    simp [GLFW_PRESS, tickAdvance]
  · rw [GetKeyState_eq _ _ hk, Update_m_KeyStates, KeyCallback_m_KeyStates _ _ _ hk]
    simp [GLFW_PRESS, GLFW_RELEASE, tickAdvance]
  · rw [GetMouseButtonState_eq _ _ hb, Update_m_MouseButtonStates,
      MouseButtonCallback_m_MouseButtonStates _ _ _ hbutton, hidx]
    simp [GLFW_PRESS, tickAdvance]
  · rw [GetMouseButtonState_eq _ _ hb, Update_m_MouseButtonStates,
      MouseButtonCallback_m_MouseButtonStates _ _ _ hbutton, hidx]
    simp [GLFW_PRESS, GLFW_RELEASE, tickAdvance]

theorem Update_advances_states_witness :
    ((0 : Int) ≤ 32 ∧ (32 : Int) < GLFW_KEY_LAST) ∧ ((0 : Int) ≤ 1 ∧ (1 : Int) < MouseButtonCount) ∧
    (Input.init.KeyCallback 32 GLFW_PRESS).Update.1.GetKeyState 32 = KeyState.Held ∧
    (Input.init.KeyCallback 32 GLFW_RELEASE).Update.1.GetKeyState 32 = KeyState.Released :=
  ⟨by decide, by decide,
    (Update_advances_states Input.init 0 0 32 1 (by decide) (by decide)).2.2.1,
    (Update_advances_states Input.init 0 0 32 1 (by decide) (by decide)).2.2.2.1⟩

/-- C10: a second `Input::Update()` with no device event in between leaves
the key table and the mouse-button table as the first one left them. -/
theorem Update_tables_idempotent (s : Input) :
    s.Update.1.Update.1.m_KeyStates = s.Update.1.m_KeyStates ∧
    s.Update.1.Update.1.m_MouseButtonStates = s.Update.1.m_MouseButtonStates := by
  constructor
  · rw [Update_m_KeyStates s.Update.1, Update_m_KeyStates s]
    funext i
    exact tickAdvance_idem _
  · rw [Update_m_MouseButtonStates s.Update.1, Update_m_MouseButtonStates s]
    funext j
    exact tickAdvance_idem _

/-- C8: for a key id that is negative or at least `GLFW_KEY_LAST`, and for a
mouse button whose index is at least `MouseButton::Count`, in every input
state the four predicates return `false` and the state getter returns
`Released`; the answer is the same constant for every state, so the tables
are not consulted. -/
theorem outOfRange_queries (s : Input) (key button : Int)
    (hkey : key < 0 ∨ key ≥ GLFW_KEY_LAST) (hbutton : sizeT button ≥ MouseButtonCount) :
    (s.IsKeyPressed key = false ∧ s.IsKeyHeld key = false ∧ s.IsKeyReleased key = false ∧
      s.IsKeyJustReleased key = false ∧ s.GetKeyState key = KeyState.Released) ∧
    (s.IsMouseButtonPressed button = false ∧ s.IsMouseButtonHeld button = false ∧
      s.IsMouseButtonReleased button = false ∧ s.IsMouseButtonJustReleased button = false ∧
      s.GetMouseButtonState button = KeyState.Released) := by
  refine ⟨⟨?_, ?_, ?_, ?_, ?_⟩, ⟨?_, ?_, ?_, ?_, ?_⟩⟩
  · unfold Input.IsKeyPressed; exact dif_pos hkey
  · unfold Input.IsKeyHeld; exact dif_pos hkey
  · unfold Input.IsKeyReleased; exact dif_pos hkey
  · unfold Input.IsKeyJustReleased; exact dif_pos hkey
  · unfold Input.GetKeyState; exact dif_pos hkey
  · unfold Input.IsMouseButtonPressed; exact dif_pos hbutton
  · unfold Input.IsMouseButtonHeld; exact dif_pos hbutton
  · unfold Input.IsMouseButtonReleased; exact dif_pos hbutton
  · unfold Input.IsMouseButtonJustReleased; exact dif_pos hbutton
  · unfold Input.GetMouseButtonState; exact dif_pos hbutton

theorem outOfRange_queries_witness :
    ((348 : Int) < 0 ∨ (348 : Int) ≥ GLFW_KEY_LAST) ∧ sizeT (-1) ≥ MouseButtonCount ∧
    (Input.init.KeyCallback 65 GLFW_PRESS).IsKeyReleased 348 = false ∧
    (Input.init.KeyCallback 65 GLFW_PRESS).GetMouseButtonState (-1) = KeyState.Released :=
  ⟨by decide, by decide,
    (outOfRange_queries (Input.init.KeyCallback 65 GLFW_PRESS) 348 (-1)
      (by decide) (by decide)).1.2.2.1,
    (outOfRange_queries (Input.init.KeyCallback 65 GLFW_PRESS) 348 (-1)
      (by decide) (by decide)).2.2.2.2.2⟩

theorem KeyCallback_m_MouseButtonStates (s : Input) (key action : Int) :
    (s.KeyCallback key action).m_MouseButtonStates = s.m_MouseButtonStates := by
  unfold Input.KeyCallback
  split_ifs <;> rfl

theorem MouseButtonCallback_m_KeyStates (s : Input) (button action : Int) :
    (s.MouseButtonCallback button action).m_KeyStates = s.m_KeyStates := by
  unfold Input.MouseButtonCallback
  split_ifs <;> rfl

theorem KeyCallback_other_slot (s : Input) (key action : Int) (i : Fin (GLFW_KEY_LAST + 1))
    (hi : (i.val : Int) ≠ key) :
    (s.KeyCallback key action).m_KeyStates i = s.m_KeyStates i := by
  by_cases h : key < 0 ∨ key ≥ GLFW_KEY_LAST
  · have h1 : ¬ (key ≥ 0 ∧ key < GLFW_KEY_LAST) := by omega
    unfold Input.KeyCallback
    rw [dif_neg h1]
  · rw [KeyCallback_m_KeyStates s key action h]
    have hne : i ≠ Input.keySlot key h := by
      intro heq
      apply hi
      rw [heq]
      simp only [Input.keySlot]
      omega
    split_ifs <;> simp [Function.update_noteq hne]

theorem MouseButtonCallback_other_slot (s : Input) (button action : Int)
    (j : Fin MouseButtonCount) (hj : (j.val : Int) ≠ button) :
    (s.MouseButtonCallback button action).m_MouseButtonStates j = s.m_MouseButtonStates j := by
  by_cases h : 0 ≤ button ∧ button < MouseButtonCount
  · rw [MouseButtonCallback_m_MouseButtonStates s button action h]
    have hne : j ≠ ⟨button.toNat, by omega⟩ := by
      intro heq
      apply hj
      rw [heq]
      simp only
      omega
    split_ifs <;> simp [Function.update_noteq hne]
  · have h1 : ¬ (button ≥ 0 ∧ button < MouseButtonCount) := by omega
    unfold Input.MouseButtonCallback
    rw [dif_neg h1]

theorem deliver_other_key (s : Input) (ev : Event) (key : Int) (i : Fin (GLFW_KEY_LAST + 1))
    (hi : (i.val : Int) = key) (hev : ev.targetsKey key = false) :
    (deliver s ev).m_KeyStates i = s.m_KeyStates i := by
  cases ev with
  | key k a =>
    have hk : k ≠ key := by simpa [Event.targetsKey] using hev
    exact KeyCallback_other_slot s k a i (by omega)
  | mouseButton b a => simp [deliver, MouseButtonCallback_m_KeyStates]
  | cursorPos x y =>
    simp only [deliver, Input.CursorPosCallback]
    split_ifs <;> rfl
  | scroll x y => rfl

theorem deliver_other_button (s : Input) (ev : Event) (button : Int) (j : Fin MouseButtonCount)
    (hj : (j.val : Int) = button) (hev : ev.targetsButton button = false) :
    (deliver s ev).m_MouseButtonStates j = s.m_MouseButtonStates j := by
  cases ev with
  | key k a => simp [deliver, KeyCallback_m_MouseButtonStates]
  | mouseButton b a =>
    have hb : b ≠ button := by simpa [Event.targetsButton] using hev
    exact MouseButtonCallback_other_slot s b a j (by omega)
  | cursorPos x y =>
    simp only [deliver, Input.CursorPosCallback]
    split_ifs <;> rfl
  | scroll x y => rfl

theorem pollEvents_other_key (evs : List Event) (key : Int) (i : Fin (GLFW_KEY_LAST + 1))
    (hi : (i.val : Int) = key) : ∀ s : Input, (∀ ev ∈ evs, ev.targetsKey key = false) →
    (pollEvents s evs).m_KeyStates i = s.m_KeyStates i := by
  induction evs with
  | nil => intro s _; rfl
  | cons ev evs ih =>
    intro s h
    have h1 := ih (deliver s ev) (fun e he => h e (List.mem_cons_of_mem _ he))
    have h2 := deliver_other_key s ev key i hi (h ev (List.mem_cons_self _ _))
    simp only [pollEvents, List.foldl_cons] at h1 ⊢
    rw [h1, h2]

theorem pollEvents_other_button (evs : List Event) (button : Int) (j : Fin MouseButtonCount)
    (hj : (j.val : Int) = button) : ∀ s : Input, (∀ ev ∈ evs, ev.targetsButton button = false) →
    (pollEvents s evs).m_MouseButtonStates j = s.m_MouseButtonStates j := by
  induction evs with
  | nil => intro s _; rfl
  | cons ev evs ih =>
    intro s h
    have h1 := ih (deliver s ev) (fun e he => h e (List.mem_cons_of_mem _ he))
    have h2 := deliver_other_button s ev button j hj (h ev (List.mem_cons_self _ _))
    simp only [pollEvents, List.foldl_cons] at h1 ⊢
    rw [h1, h2]

theorem pollEvents_append (s : Input) (xs ys : List Event) :
    pollEvents s (xs ++ ys) = pollEvents (pollEvents s xs) ys := by
  simp [pollEvents, List.foldl_append]

theorem pollEvents_last_key (s : Input) (key action : Int) (before after : List Event)
    (hkey : ¬ (key < 0 ∨ key ≥ GLFW_KEY_LAST))
    (hafter : ∀ ev ∈ after, ev.targetsKey key = false) :
    (pollEvents s (before ++ Event.key key action :: after)).GetKeyState key =
      ((pollEvents s before).KeyCallback key action).GetKeyState key := by
  rw [pollEvents_append, GetKeyState_eq _ _ hkey, GetKeyState_eq _ _ hkey]
  have := pollEvents_other_key after key (Input.keySlot key hkey)
    (by simp only [Input.keySlot]; omega) (deliver (pollEvents s before) (Event.key key action))
    hafter
  simpa [pollEvents, deliver] using this

theorem pollEvents_last_button (s : Input) (button action : Int) (before after : List Event)
    (hbutton : 0 ≤ button ∧ button < MouseButtonCount)
    (hafter : ∀ ev ∈ after, ev.targetsButton button = false) :
    (pollEvents s (before ++ Event.mouseButton button action :: after)).GetMouseButtonState button =
      ((pollEvents s before).MouseButtonCallback button action).GetMouseButtonState button := by
  have hb : sizeT button < MouseButtonCount := by
    rw [sizeT_of_inRange button hbutton]; omega
  rw [pollEvents_append, GetMouseButtonState_eq _ _ hb, GetMouseButtonState_eq _ _ hb]
  have := pollEvents_other_button after button ⟨sizeT button, hb⟩
    (by simp only [sizeT_of_inRange button hbutton]; omega)
    (deliver (pollEvents s before) (Event.mouseButton button action)) hafter
  simpa [pollEvents, deliver] using this

theorem KeyCallback_GetKeyState (s : Input) (key : Int) (hkey : 0 ≤ key ∧ key < GLFW_KEY_LAST) :
    (s.KeyCallback key GLFW_PRESS).GetKeyState key = KeyState.Pressed ∧
    (s.KeyCallback key GLFW_REPEAT).GetKeyState key = KeyState.Held ∧
    (s.KeyCallback key GLFW_RELEASE).GetKeyState key = KeyState.JustReleased := by
  have hk : ¬ (key < 0 ∨ key ≥ GLFW_KEY_LAST) := by omega
  refine ⟨?_, ?_, ?_⟩ <;>
    rw [GetKeyState_eq _ _ hk, KeyCallback_m_KeyStates _ _ _ hk] <;>
    simp [GLFW_PRESS, GLFW_RELEASE, GLFW_REPEAT]

theorem MouseButtonCallback_GetMouseButtonState (s : Input) (button : Int)
    (hbutton : 0 ≤ button ∧ button < MouseButtonCount) :
    (s.MouseButtonCallback button GLFW_PRESS).GetMouseButtonState button = KeyState.Pressed ∧
    (s.MouseButtonCallback button GLFW_RELEASE).GetMouseButtonState button
      = KeyState.JustReleased := by
  have hb : sizeT button < MouseButtonCount := by
    rw [sizeT_of_inRange button hbutton]; omega
  have hidx : (⟨sizeT button, hb⟩ : Fin MouseButtonCount) = ⟨button.toNat, by omega⟩ :=
    Fin.ext (sizeT_of_inRange button hbutton)
  refine ⟨?_, ?_⟩ <;>
    rw [GetMouseButtonState_eq _ _ hb, MouseButtonCallback_m_MouseButtonStates _ _ _ hbutton,
      hidx] <;>
    simp [GLFW_PRESS, GLFW_RELEASE]

/-- C9: for an in-range key or mouse button, a device event sets the state of
its id whatever the state was before (down: `Pressed`, key repeat: `Held`, up:
`JustReleased`); after any run of events the state of an id is the one set by
the last event for that id, whatever other events come before or after it
(`after` holds no event for the key, `afterB` none for the button); and an
event leaves every other slot of its own table and the whole other table
unchanged. -/
theorem event_sets_state (s : Input) (key button action : Int)
    (before after afterB : List Event)
    (i : Fin (GLFW_KEY_LAST + 1)) (j : Fin MouseButtonCount)
    (hkey : 0 ≤ key ∧ key < GLFW_KEY_LAST) (hbutton : 0 ≤ button ∧ button < MouseButtonCount)
    (hafterKey : ∀ ev ∈ after, ev.targetsKey key = false)
    (hafterButton : ∀ ev ∈ afterB, ev.targetsButton button = false)
    (hi : (i.val : Int) ≠ key) (hj : (j.val : Int) ≠ button) :
    ((s.KeyCallback key GLFW_PRESS).GetKeyState key = KeyState.Pressed ∧
      (s.KeyCallback key GLFW_REPEAT).GetKeyState key = KeyState.Held ∧
      (s.KeyCallback key GLFW_RELEASE).GetKeyState key = KeyState.JustReleased) ∧
    ((s.MouseButtonCallback button GLFW_PRESS).GetMouseButtonState button = KeyState.Pressed ∧
      (s.MouseButtonCallback button GLFW_RELEASE).GetMouseButtonState button
        = KeyState.JustReleased) ∧
    ((pollEvents s (before ++ Event.key key GLFW_PRESS :: after)).GetKeyState key
        = KeyState.Pressed ∧
      (pollEvents s (before ++ Event.key key GLFW_REPEAT :: after)).GetKeyState key
        = KeyState.Held ∧
      (pollEvents s (before ++ Event.key key GLFW_RELEASE :: after)).GetKeyState key
        = KeyState.JustReleased) ∧
    ((pollEvents s (before ++ Event.mouseButton button GLFW_PRESS :: afterB)).GetMouseButtonState
        button = KeyState.Pressed ∧
      (pollEvents s (before ++ Event.mouseButton button GLFW_RELEASE :: afterB)).GetMouseButtonState
        button = KeyState.JustReleased) ∧
    ((s.KeyCallback key action).m_KeyStates i = s.m_KeyStates i ∧
      (s.KeyCallback key action).m_MouseButtonStates = s.m_MouseButtonStates) ∧
    ((s.MouseButtonCallback button action).m_MouseButtonStates j = s.m_MouseButtonStates j ∧
      (s.MouseButtonCallback button action).m_KeyStates = s.m_KeyStates) := by
  have hk : ¬ (key < 0 ∨ key ≥ GLFW_KEY_LAST) := by omega
  refine ⟨KeyCallback_GetKeyState s key hkey,
    MouseButtonCallback_GetMouseButtonState s button hbutton, ⟨?_, ?_, ?_⟩, ⟨?_, ?_⟩,
    ⟨KeyCallback_other_slot s key action i hi, KeyCallback_m_MouseButtonStates s key action⟩,
    ⟨MouseButtonCallback_other_slot s button action j hj,
      MouseButtonCallback_m_KeyStates s button action⟩⟩
  · rw [pollEvents_last_key s key _ before after hk hafterKey]
    exact (KeyCallback_GetKeyState _ key hkey).1
  · rw [pollEvents_last_key s key _ before after hk hafterKey]
    exact (KeyCallback_GetKeyState _ key hkey).2.1
  · rw [pollEvents_last_key s key _ before after hk hafterKey]
    exact (KeyCallback_GetKeyState _ key hkey).2.2
  · rw [pollEvents_last_button s button _ before afterB hbutton hafterButton]
    exact (MouseButtonCallback_GetMouseButtonState _ button hbutton).1
  · rw [pollEvents_last_button s button _ before afterB hbutton hafterButton]
    exact (MouseButtonCallback_GetMouseButtonState _ button hbutton).2

theorem event_sets_state_witness :
    ((0 : Int) ≤ 65 ∧ (65 : Int) < GLFW_KEY_LAST) ∧ ((0 : Int) ≤ 0 ∧ (0 : Int) < MouseButtonCount) ∧
    (pollEvents Input.init ([Event.key 65 GLFW_RELEASE] ++ Event.key 65 GLFW_PRESS ::
      [Event.key 68 GLFW_PRESS, Event.scroll 0 1])).GetKeyState 65 = KeyState.Pressed :=
  ⟨by decide, by decide,
    (event_sets_state Input.init 65 0 GLFW_PRESS [Event.key 65 GLFW_RELEASE]
      [Event.key 68 GLFW_PRESS, Event.scroll 0 1] [Event.mouseButton 1 GLFW_PRESS] 0 1
      (by decide) (by decide)
      (by intro ev hev; simp at hev; rcases hev with h | h <;> rw [h] <;> rfl)
      (by intro ev hev; simp at hev; rw [hev]; rfl)
      (by decide) (by decide)).2.2.1.1⟩

/-! ## Properties of the action mapper -/

theorem checkKeys_eq (s : Input) (keys : List Int) (action : InputAction) :
    Input.checkKeys s keys action =
      if keys.any (fun key => s.IsKeyPressed key || s.IsKeyHeld key) then
        ({ action with isActive := true }, Input.invoke action)
      else (action, []) := by
  induction keys with
  | nil => simp [Input.checkKeys]
  | cons key rest ih =>
    unfold Input.checkKeys
    by_cases h : (s.IsKeyPressed key || s.IsKeyHeld key) = true
    · rw [if_pos h]
      simp [List.any_cons, h]
    · rw [if_neg h, ih]
      have h1 : (s.IsKeyPressed key || s.IsKeyHeld key) = false := by simpa using h
      simp only [List.any_cons, h1, Bool.false_or]

theorem checkMouseButtons_eq (s : Input) (buttons : List Int) (action : InputAction) :
    Input.checkMouseButtons s buttons action =
      if buttons.any (fun button => s.IsMouseButtonPressed button || s.IsMouseButtonHeld button) then
        ({ action with isActive := true }, Input.invoke action)
      else (action, []) := by
  induction buttons with
  | nil => simp [Input.checkMouseButtons]
  | cons button rest ih =>
    unfold Input.checkMouseButtons
    by_cases h : (s.IsMouseButtonPressed button || s.IsMouseButtonHeld button) = true
    · rw [if_pos h]
      simp [List.any_cons, h]
    · rw [if_neg h, ih]
      have h1 : (s.IsMouseButtonPressed button || s.IsMouseButtonHeld button) = false := by
        simpa using h
      simp only [List.any_cons, h1, Bool.false_or]

theorem updateAction_eq (s : Input) (action : InputAction) :
    Input.updateAction s action =
      ({ action with isActive := anyBoundDown s action },
        if anyBoundDown s action then Input.invoke action else []) := by
  unfold Input.updateAction anyBoundDown
  simp only [checkKeys_eq, checkMouseButtons_eq]
  by_cases hk : action.keys.any (fun key => s.IsKeyPressed key || s.IsKeyHeld key) = true
  · simp [hk, Input.invoke]
  · have hk1 : action.keys.any (fun key => s.IsKeyPressed key || s.IsKeyHeld key) = false := by
      simpa using hk
    by_cases hb : action.mouseButtons.any
        (fun button => s.IsMouseButtonPressed button || s.IsMouseButtonHeld button) = true
    · simp [hk1, hb, Input.invoke]
    · have hb1 : action.mouseButtons.any
          (fun button => s.IsMouseButtonPressed button || s.IsMouseButtonHeld button) = false := by
        simpa using hb
      simp [hk1, hb1]

theorem updateActions_lookup (s : Input) (name : String) (actions : List (String × InputAction)) :
    (Input.updateActions s actions).1.lookup name =
      (actions.lookup name).map (fun action => (Input.updateAction s action).1) := by
  induction actions with
  | nil => simp [Input.updateActions]
  | cons p rest ih =>
    obtain ⟨n, a⟩ := p
    simp only [Input.updateActions, List.lookup_cons]
    cases h : (name == n)
    · simpa using ih
    · simp

theorem updateActions_trace (s : Input) (actions : List (String × InputAction)) :
    (Input.updateActions s actions).2 =
      (Input.updateActions s actions).1.flatMap
        (fun p => if p.2.isActive then Input.invoke p.2 else []) := by
  induction actions with
  | nil => simp [Input.updateActions]
  | cons p rest ih =>
    obtain ⟨n, a⟩ := p
    simp only [Input.updateActions, List.flatMap_cons]
    rw [← ih, updateAction_eq]
    cases h : anyBoundDown s a <;> simp [Input.invoke]

theorem Update_m_Actions (s : Input) :
    s.Update.1.m_Actions =
      (Input.updateActions s.UpdateKeyStates.UpdateMouseButtonStates s.m_Actions).1 := by
  simp only [Input.Update, Input.UpdateActionStates, Input.UpdateMouseButtonStates,
    Input.UpdateKeyStates]

theorem Update_trace (s : Input) :
    s.Update.2 = (Input.updateActions s.UpdateKeyStates.UpdateMouseButtonStates s.m_Actions).2 := by
  simp only [Input.Update, Input.UpdateActionStates, Input.UpdateMouseButtonStates,
    Input.UpdateKeyStates]

theorem advanced_key_down (s : Input) (key : Int) :
    (s.UpdateKeyStates.UpdateMouseButtonStates.IsKeyPressed key ||
      s.UpdateKeyStates.UpdateMouseButtonStates.IsKeyHeld key) = true ↔
    (0 ≤ key ∧ key < GLFW_KEY_LAST) ∧
      (s.GetKeyState key = KeyState.Pressed ∨ s.GetKeyState key = KeyState.Held) := by
  by_cases h : key < 0 ∨ key ≥ GLFW_KEY_LAST
  · have h1 : ¬ (0 ≤ key ∧ key < GLFW_KEY_LAST) := by omega
    unfold Input.IsKeyPressed Input.IsKeyHeld
    rw [dif_pos h, dif_pos h]
    constructor
    · intro hf; simp at hf
    · rintro ⟨hr, _⟩; exact absurd hr h1
  · have h1 : 0 ≤ key ∧ key < GLFW_KEY_LAST := by omega
    unfold Input.IsKeyPressed Input.IsKeyHeld
    rw [dif_neg h, dif_neg h, GetKeyState_eq s key h]
    simp only [Input.UpdateMouseButtonStates, Input.UpdateKeyStates, updateStatesLoop_full]
    have h2 : key < 348 := h1.2
    cases hs : s.m_KeyStates (Input.keySlot key h) <;> simp [tickAdvance, h1.1, h2]

theorem advanced_button_down (s : Input) (button : Int) :
    (s.UpdateKeyStates.UpdateMouseButtonStates.IsMouseButtonPressed button ||
      s.UpdateKeyStates.UpdateMouseButtonStates.IsMouseButtonHeld button) = true ↔
    sizeT button < MouseButtonCount ∧
      (s.GetMouseButtonState button = KeyState.Pressed ∨
        s.GetMouseButtonState button = KeyState.Held) := by
  by_cases h : sizeT button ≥ MouseButtonCount
  · have h1 : ¬ sizeT button < MouseButtonCount := by omega
    unfold Input.IsMouseButtonPressed Input.IsMouseButtonHeld
    rw [dif_pos h, dif_pos h]
    constructor
    · intro hf; simp at hf
    · rintro ⟨hr, _⟩; exact absurd hr h1
  · have h1 : sizeT button < MouseButtonCount := by omega
    unfold Input.IsMouseButtonPressed Input.IsMouseButtonHeld
    rw [dif_neg h, dif_neg h, GetMouseButtonState_eq s button h1]
    simp only [Input.UpdateMouseButtonStates, Input.UpdateKeyStates, updateStatesLoop_full]
    have h2 : sizeT button < 5 := h1
    cases hs : s.m_MouseButtonStates ⟨sizeT button, h1⟩ <;> simp [tickAdvance, h2]

/-- C5: after `Input::Update()`, a mapped action is active exactly when one of
its bound in-range keys, or one of its bound mouse buttons with a valid index,
was `Pressed` or `Held` when `Update()` was called; the activation value the
action had before plays no role. -/
theorem action_active_iff (s : Input) (name : String) (action : InputAction)
    (h : s.m_Actions.lookup name = some action) :
    s.Update.1.IsActionActive name = true ↔
      (∃ key ∈ action.keys, (0 ≤ key ∧ key < GLFW_KEY_LAST) ∧
        (s.GetKeyState key = KeyState.Pressed ∨ s.GetKeyState key = KeyState.Held)) ∨
      (∃ button ∈ action.mouseButtons, sizeT button < MouseButtonCount ∧
        (s.GetMouseButtonState button = KeyState.Pressed ∨
          s.GetMouseButtonState button = KeyState.Held)) := by
  unfold Input.IsActionActive
  rw [Update_m_Actions, updateActions_lookup, h]
  simp only [Option.map_some', updateAction_eq, anyBoundDown, Bool.or_eq_true, List.any_eq_true]
  constructor
  · rintro (⟨key, hmem, hdown⟩ | ⟨button, hmem, hdown⟩)
    · exact Or.inl ⟨key, hmem, (advanced_key_down s key).1 (by simpa using hdown)⟩
    · exact Or.inr ⟨button, hmem, (advanced_button_down s button).1 (by simpa using hdown)⟩
  · rintro (⟨key, hmem, hdown⟩ | ⟨button, hmem, hdown⟩)
    · exact Or.inl ⟨key, hmem, by simpa using (advanced_key_down s key).2 hdown⟩
    · exact Or.inr ⟨button, hmem, by simpa using (advanced_button_down s button).2 hdown⟩

/-- C6: in the recomputation of one action that has a callback bound, the
callback is invoked exactly once when the action ends up active and not at all
when it ends up inactive, whatever number of its keys and buttons are down;
and the callbacks invoked by a whole `Input::Update()` are, in iteration
order, one invocation for each action that is active afterwards and has a
callback. -/
theorem callback_once (s : Input) (action : InputAction) (cb : Nat)
    (hcb : action.callback = some cb) :
    ((s.updateAction action).1.isActive = true → (s.updateAction action).2 = [cb]) ∧
    ((s.updateAction action).1.isActive = false → (s.updateAction action).2 = []) ∧
    s.Update.2 =
      s.Update.1.m_Actions.flatMap (fun p => if p.2.isActive then Input.invoke p.2 else []) := by
  refine ⟨?_, ?_, ?_⟩
  · intro h
    rw [updateAction_eq] at h ⊢
    simp only at h
    simp [h, Input.invoke, hcb]
  · intro h
    rw [updateAction_eq] at h ⊢
    simp only at h
    simp [h]
  · rw [Update_trace, Update_m_Actions]
    exact updateActions_trace _ _

theorem action_active_iff_witness :
    spaceDown.m_Actions.lookup "Jump" = some jumpAction ∧
      spaceDown.Update.1.IsActionActive "Jump" = true :=
  ⟨by rfl, (action_active_iff spaceDown "Jump" jumpAction (by rfl)).2
    (Or.inl ⟨32, by decide, by decide, Or.inl (by decide)⟩)⟩

theorem callback_once_witness :
    jumpAction.callback = some 7 ∧ (spaceDown.updateAction jumpAction).1.isActive = true ∧
      (spaceDown.updateAction jumpAction).2 = [7] :=
  ⟨rfl, by decide, (callback_once spaceDown jumpAction 7 rfl).1 (by decide)⟩

/-! ## Properties of the engine loop -/

theorem IsKeyPressed_after_Update (s : Input) (key : Int) :
    s.Update.1.IsKeyPressed key = false := by
  unfold Input.IsKeyPressed
  by_cases h : key < 0 ∨ key ≥ GLFW_KEY_LAST
  · rw [dif_pos h]
  · rw [dif_neg h, Update_m_KeyStates]
    cases hs : s.m_KeyStates (Input.keySlot key h) <;> simp [tickAdvance, hs]

/-- The exit check of `Engine::Run` never fires: after an iteration the loop
keeps running exactly when it was running and the window did not ask to
close. -/
theorem loopBody_m_Running (e : Engine) (f : Frame) :
    (e.loopBody f).m_Running = (if f.shouldClose then false else e.m_Running) := by
  simp only [Engine.loopBody, IsKeyPressed_after_Update]
  simp

theorem loopBody_m_Input (e : Engine) (f : Frame) :
    (e.loopBody f).m_Input = pollEvents e.m_Input.Update.1 f.events := by
  simp only [Engine.loopBody]

/-- C7 (what the code does): an Escape down-event delivered while events are
polled in one iteration leaves the Escape key `Pressed`; in the following
iteration `Input::Update()` runs before the exit check and turns it into
`Held`, so `IsKeyPressed(GLFW_KEY_ESCAPE)` is false at the check and the loop
is still running after that iteration. -/
theorem escape_press_not_seen (e : Engine) (t1 t2 : ℚ) (before later : List Event) :
    (Engine.loopBody { e with m_Running := true }
        ⟨t1, before ++ [Event.key GLFW_KEY_ESCAPE GLFW_PRESS], false⟩).m_Input.GetKeyState
      GLFW_KEY_ESCAPE = KeyState.Pressed ∧
    (Engine.loopBody { e with m_Running := true }
        ⟨t1, before ++ [Event.key GLFW_KEY_ESCAPE GLFW_PRESS], false⟩).m_Input.Update.1.IsKeyPressed
      GLFW_KEY_ESCAPE = false ∧
    (Engine.Run { e with m_Running := true }
      [⟨t1, before ++ [Event.key GLFW_KEY_ESCAPE GLFW_PRESS], false⟩,
        ⟨t2, later, false⟩]).m_Running = true := by
  refine ⟨?_, IsKeyPressed_after_Update _ _, ?_⟩
  · rw [loopBody_m_Input]
    have hk : ¬ (GLFW_KEY_ESCAPE < 0 ∨ GLFW_KEY_ESCAPE ≥ GLFW_KEY_LAST) := by decide
    rw [pollEvents_last_key _ GLFW_KEY_ESCAPE GLFW_PRESS before [] hk (by simp)]
    exact (KeyCallback_GetKeyState _ GLFW_KEY_ESCAPE (by decide)).1
  · simp [Engine.Run, loopBody_m_Running]

/-! ## Properties of mapping, unmapping and binding -/

theorem lookup_assignAction_self (name : String) (action : InputAction)
    (l : List (String × InputAction)) :
    (Input.assignAction name action l).lookup name = some action := by
  induction l with
  | nil => simp [Input.assignAction, List.lookup]
  | cons p rest ih =>
    obtain ⟨n, a⟩ := p
    unfold Input.assignAction
    by_cases h : name = n
    · subst h
      simp [List.lookup]
    · have hb : (name == n) = false := by simpa using h
      simp only [hb, Bool.false_eq_true, if_false, List.lookup_cons]
      exact ih

theorem lookup_assignAction_other (name n : String) (action : InputAction)
    (l : List (String × InputAction)) (h : n ≠ name) :
    (Input.assignAction name action l).lookup n = l.lookup n := by
  induction l with
  | nil =>
    have hb : (n == name) = false := by simpa using h
    simp [Input.assignAction, List.lookup, hb]
  | cons p rest ih =>
    obtain ⟨m, a⟩ := p
    unfold Input.assignAction
    by_cases hm : name = m
    · subst hm
      have hb : (n == name) = false := by simpa using h
      simp [List.lookup, hb]
    · have hb : (name == m) = false := by simpa using hm
      simp only [hb, Bool.false_eq_true, if_false, List.lookup_cons]
      rw [ih]

theorem lookup_eq_none_of_not_mem (name : String) (l : List (String × InputAction))
    (h : name ∉ l.map Prod.fst) : l.lookup name = none := by
  induction l with
  | nil => rfl
  | cons p rest ih =>
    obtain ⟨n, a⟩ := p
    simp only [List.map_cons, List.mem_cons, not_or] at h
    have hb : (name == n) = false := by simpa using h.1
    simp only [List.lookup_cons, hb]
    exact ih h.2

theorem not_mem_of_lookup_eq_none (name : String) (l : List (String × InputAction))
    (h : l.lookup name = none) : name ∉ l.map Prod.fst := by
  induction l with
  | nil => simp
  | cons p rest ih =>
    obtain ⟨n, a⟩ := p
    simp only [List.lookup_cons] at h
    cases hb : (name == n) with
    | true => simp [hb] at h
    | false =>
      simp only [hb] at h
      have hne : name ≠ n := by simpa using hb
      simp only [List.map_cons, List.mem_cons, not_or]
      exact ⟨hne, ih h⟩

theorem eraseAction_keys (name : String) (l : List (String × InputAction)) :
    (Input.eraseAction name l).map Prod.fst = (l.map Prod.fst).erase name := by
  induction l with
  | nil => rfl
  | cons p rest ih =>
    obtain ⟨n, a⟩ := p
    unfold Input.eraseAction
    by_cases h : name = n
    · subst h
      simp
    · have hb : (name == n) = false := by simpa using h
      have hb2 : (n == name) = false := by simpa using (Ne.symm h)
      simp only [hb, Bool.false_eq_true, if_false, List.map_cons, List.erase_cons, hb2, ih]

theorem assignAction_keys (name : String) (action : InputAction)
    (l : List (String × InputAction)) :
    (Input.assignAction name action l).map Prod.fst =
      if name ∈ l.map Prod.fst then l.map Prod.fst else l.map Prod.fst ++ [name] := by
  induction l with
  | nil => simp [Input.assignAction]
  | cons p rest ih =>
    obtain ⟨n, a⟩ := p
    unfold Input.assignAction
    by_cases h : name = n
    · subst h
      simp
    · have hb : (name == n) = false := by simpa using h
      simp only [hb, Bool.false_eq_true, if_false, List.map_cons, ih, List.mem_cons, h,
        false_or]
      split_ifs <;> simp

theorem assignCallback_keys (name : String) (callback : Option Nat)
    (l : List (String × InputAction)) :
    (Input.assignCallback name callback l).map Prod.fst = l.map Prod.fst := by
  induction l with
  | nil => rfl
  | cons p rest ih =>
    obtain ⟨n, a⟩ := p
    unfold Input.assignCallback
    split_ifs <;> simp [ih]

theorem updateActions_keys (s : Input) (l : List (String × InputAction)) :
    (Input.updateActions s l).1.map Prod.fst = l.map Prod.fst := by
  induction l with
  | nil => rfl
  | cons p rest ih =>
    obtain ⟨n, a⟩ := p
    simp [Input.updateActions, ih]

theorem deliver_m_Actions (s : Input) (ev : Event) : (deliver s ev).m_Actions = s.m_Actions := by
  cases ev with
  | key k a =>
    simp only [deliver, Input.KeyCallback]
    split_ifs <;> rfl
  | mouseButton b a =>
    simp only [deliver, Input.MouseButtonCallback]
    split_ifs <;> rfl
  | cursorPos x y =>
    simp only [deliver, Input.CursorPosCallback]
    split_ifs <;> rfl
  | scroll x y => rfl

theorem pollEvents_m_Actions (evs : List Event) : ∀ s : Input,
    (pollEvents s evs).m_Actions = s.m_Actions := by
  induction evs with
  | nil => intro s; rfl
  | cons ev evs ih =>
    intro s
    have := ih (deliver s ev)
    simp only [pollEvents, List.foldl_cons] at this ⊢
    rw [this, deliver_m_Actions]

/-- Every use of the instance keeps the keys of the action table distinct. -/
theorem applyOp_actionNamesUnique (s : Input) (op : Op) (h : actionNamesUnique s) :
    actionNamesUnique (applyOp s op).1 := by
  unfold actionNamesUnique at h ⊢
  cases op with
  | update => rw [applyOp, Update_m_Actions, updateActions_keys]; exact h
  | event e => rw [applyOp, deliver_m_Actions]; exact h
  | getMouseDelta => exact h
  | mapAction n k b =>
    simp only [applyOp, Input.MapAction, assignAction_keys]
    split_ifs with hm
    · exact h
    · exact List.Nodup.append h (List.nodup_singleton n) (by simpa using hm)
  | unmapAction n =>
    simp only [applyOp, Input.UnmapAction, eraseAction_keys]
    exact h.erase n
  | bindActionCallback n c =>
    simp only [applyOp, Input.BindActionCallback, assignCallback_keys]
    exact h

theorem applyOps_actionNamesUnique (ops : List Op) : ∀ s : Input, actionNamesUnique s →
    actionNamesUnique (applyOps s ops).1 := by
  induction ops with
  | nil => intro s h; exact h
  | cons op ops ih =>
    intro s h
    exact ih _ (applyOp_actionNamesUnique s op h)

theorem init_actionNamesUnique : actionNamesUnique Input.init := by
  simp [actionNamesUnique, Input.init]

theorem IsActionActive_of_lookup (s : Input) (name : String) :
    s.IsActionActive name =
      match s.m_Actions.lookup name with
      | some action => action.isActive
      | none => false := by
  rfl

/-- After `Input::Update()`, the action found under `name` is active exactly
when one of its bound in-range keys or valid mouse buttons was pressed or held
before. -/
theorem Update_IsActionActive_iff (s : Input) (name : String) (action : InputAction)
    (h : s.m_Actions.lookup name = some action) :
    s.Update.1.IsActionActive name = true ↔
      (∃ key ∈ action.keys, (0 ≤ key ∧ key < GLFW_KEY_LAST) ∧
        (s.GetKeyState key = KeyState.Pressed ∨ s.GetKeyState key = KeyState.Held)) ∨
      (∃ button ∈ action.mouseButtons, sizeT button < MouseButtonCount ∧
        (s.GetMouseButtonState button = KeyState.Pressed ∨
          s.GetMouseButtonState button = KeyState.Held)) := by
  unfold Input.IsActionActive
  rw [Update_m_Actions, updateActions_lookup, h]
  simp only [Option.map_some', updateAction_eq, anyBoundDown, Bool.or_eq_true, List.any_eq_true]
  constructor
  · rintro (⟨key, hmem, hdown⟩ | ⟨button, hmem, hdown⟩)
    · exact Or.inl ⟨key, hmem, (advanced_key_down s key).1 (by simpa using hdown)⟩
    · exact Or.inr ⟨button, hmem, (advanced_button_down s button).1 (by simpa using hdown)⟩
  · rintro (⟨key, hmem, hdown⟩ | ⟨button, hmem, hdown⟩)
    · exact Or.inl ⟨key, hmem, by simpa using (advanced_key_down s key).2 hdown⟩
    · exact Or.inr ⟨button, hmem, by simpa using (advanced_button_down s button).2 hdown⟩

theorem MapAction_lookup (s : Input) (name : String) (keys mouseButtons : List Int) :
    (s.MapAction name keys mouseButtons).m_Actions.lookup name =
      some ⟨name, keys, mouseButtons, none, false⟩ := by
  simp only [Input.MapAction]
  exact lookup_assignAction_self _ _ _

/-- C11: right after `MapAction(name, keys, buttons)`, and after any device
events that follow it with no `Update()` in between, `IsActionActive(name)` is
false, for every input state the call is made in (so whatever the device
states are and whether or not `name` was mapped and active before). -/
theorem MapAction_inactive (s : Input) (name : String) (keys mouseButtons : List Int)
    (events : List Event) :
    (s.MapAction name keys mouseButtons).IsActionActive name = false ∧
    (pollEvents (s.MapAction name keys mouseButtons) events).IsActionActive name = false := by
  constructor
  · rw [IsActionActive_of_lookup, MapAction_lookup]
  · rw [IsActionActive_of_lookup, pollEvents_m_Actions, MapAction_lookup]

/-- C14: after `MapAction(name, keys, buttons)`, whether or not `name` was
mapped before, and after any device events that follow, `Update()` makes the
action active exactly when one of the new keys (in range) or new mouse buttons
(valid index) is pressed or held; the keys and buttons of an earlier mapping
play no role. -/
theorem MapAction_replaces_bindings (s : Input) (name : String) (keys mouseButtons : List Int)
    (events : List Event) :
    (pollEvents (s.MapAction name keys mouseButtons) events).Update.1.IsActionActive name = true ↔
      (∃ key ∈ keys, (0 ≤ key ∧ key < GLFW_KEY_LAST) ∧
        ((pollEvents (s.MapAction name keys mouseButtons) events).GetKeyState key
            = KeyState.Pressed ∨
          (pollEvents (s.MapAction name keys mouseButtons) events).GetKeyState key
            = KeyState.Held)) ∨
      (∃ button ∈ mouseButtons, sizeT button < MouseButtonCount ∧
        ((pollEvents (s.MapAction name keys mouseButtons) events).GetMouseButtonState button
            = KeyState.Pressed ∨
          (pollEvents (s.MapAction name keys mouseButtons) events).GetMouseButtonState button
            = KeyState.Held)) := by
  have h : (pollEvents (s.MapAction name keys mouseButtons) events).m_Actions.lookup name =
      some ⟨name, keys, mouseButtons, none, false⟩ := by
    rw [pollEvents_m_Actions, MapAction_lookup]
  exact Update_IsActionActive_iff _ name _ h

/-- C15 (counterexample): with `Jump` mapped to keys 32 and 65 and button 0 and
bound to callback 7, a repeated `MapAction("Jump", {68})` is not skipped: the
entry afterwards has the new key, no mouse button and no callback. -/
theorem remap_not_skipped :
    spaceDown.m_Actions.lookup "Jump" = some ⟨"Jump", [32, 65], [0], some 7, true⟩ ∧
    (spaceDown.MapAction "Jump" [68] []).m_Actions.lookup "Jump"
      = some ⟨"Jump", [68], [], none, false⟩ := by
  exact ⟨rfl, rfl⟩

/-- C15 (as amended): a repeated `MapAction` for a name that is already mapped
is not skipped: it overwrites the entry of that name with a fresh one (the new
keys and mouse buttons, no callback, inactive) and leaves the entries of all
other names as they were. -/
theorem MapAction_overwrites (s : Input) (name other : String) (keys mouseButtons : List Int)
    (h : other ≠ name) :
    (s.MapAction name keys mouseButtons).m_Actions.lookup name
      = some ⟨name, keys, mouseButtons, none, false⟩ ∧
    (s.MapAction name keys mouseButtons).m_Actions.lookup other = s.m_Actions.lookup other := by
  refine ⟨MapAction_lookup s name keys mouseButtons, ?_⟩
  simp only [Input.MapAction]
  exact lookup_assignAction_other _ _ _ _ h

theorem MapAction_overwrites_witness :
    "Run" ≠ "Jump" ∧
    (spaceDown.MapAction "Jump" [68] []).m_Actions.lookup "Jump"
      = some ⟨"Jump", [68], [], none, false⟩ :=
  ⟨by decide, (MapAction_overwrites spaceDown "Jump" "Run" [68] [] (by decide)).1⟩

theorem UnmapAction_lookup (s : Input) (name : String) (hu : actionNamesUnique s) :
    (s.UnmapAction name).m_Actions.lookup name = none := by
  apply lookup_eq_none_of_not_mem
  simp only [Input.UnmapAction, eraseAction_keys]
  exact hu.not_mem_erase

theorem applyOp_lookup_none (s : Input) (op : Op) (name : String)
    (h : s.m_Actions.lookup name = none) (hop : op.mapsName name = false) :
    (applyOp s op).1.m_Actions.lookup name = none := by
  cases op with
  | update => rw [applyOp, Update_m_Actions, updateActions_lookup, h]; rfl
  | event e => rw [applyOp, deliver_m_Actions]; exact h
  | getMouseDelta => exact h
  | mapAction n k b =>
    have hne : name ≠ n := by
      intro heq
      simp [Op.mapsName, heq] at hop
    simp only [applyOp, Input.MapAction]
    rw [lookup_assignAction_other _ _ _ _ hne]
    exact h
  | unmapAction n =>
    apply lookup_eq_none_of_not_mem
    simp only [applyOp, Input.UnmapAction, eraseAction_keys]
    exact fun hmem => not_mem_of_lookup_eq_none name _ h (List.mem_of_mem_erase hmem)
  | bindActionCallback n c =>
    apply lookup_eq_none_of_not_mem
    simp only [applyOp, Input.BindActionCallback, assignCallback_keys]
    exact not_mem_of_lookup_eq_none name _ h

theorem applyOps_lookup_none (ops : List Op) (name : String) : ∀ s : Input,
    s.m_Actions.lookup name = none → (∀ op ∈ ops, op.mapsName name = false) →
    (applyOps s ops).1.m_Actions.lookup name = none := by
  induction ops with
  | nil => intro s h _; exact h
  | cons op ops ih =>
    intro s h hops
    exact ih _ (applyOp_lookup_none s op name h (hops op (List.mem_cons_self _ _)))
      (fun o ho => hops o (List.mem_cons_of_mem _ ho))

/-- C12: `IsActionActive(name)` is false whenever `name` is not in the action
table.  After `UnmapAction(name)` it is false and stays false through every
later use of the instance other than a new `MapAction(name, ..)`: device
events (so also while the formerly bound keys are held), `Update()` calls,
and the rest; the same holds for a name that was never mapped. -/
theorem unmapped_action_inactive (s never : Input) (name : String) (ops : List Op)
    (hu : actionNamesUnique s) (hn : never.m_Actions.lookup name = none)
    (hops : ∀ op ∈ ops, op.mapsName name = false) :
    ((s.UnmapAction name).IsActionActive name = false ∧
      (applyOps (s.UnmapAction name) ops).1.IsActionActive name = false) ∧
    (never.IsActionActive name = false ∧ (applyOps never ops).1.IsActionActive name = false) := by
  have h1 := UnmapAction_lookup s name hu
  have h2 := applyOps_lookup_none ops name _ h1 hops
  have h3 := applyOps_lookup_none ops name _ hn hops
  simp only [IsActionActive_of_lookup, h1, h2, h3, hn, and_self]

theorem unmapped_action_inactive_witness :
    (actionNamesUnique spaceDown ∧ Input.init.m_Actions.lookup "Jump" = none) ∧
    (applyOps (spaceDown.UnmapAction "Jump")
      [Op.event (Event.key 32 GLFW_REPEAT), Op.update]).1.IsActionActive "Jump" = false :=
  ⟨⟨by simp [actionNamesUnique, spaceDown], rfl⟩,
    (unmapped_action_inactive spaceDown Input.init "Jump"
      [Op.event (Event.key 32 GLFW_REPEAT), Op.update]
      (by simp [actionNamesUnique, spaceDown]) rfl
      (by intro op hop; simp at hop; rcases hop with h | h <;> rw [h] <;> rfl)).1.2⟩

theorem eraseAction_assignCallback (name : String) (callback : Option Nat)
    (l : List (String × InputAction)) :
    Input.eraseAction name (Input.assignCallback name callback l) = Input.eraseAction name l := by
  induction l with
  | nil => rfl
  | cons p rest ih =>
    obtain ⟨n, a⟩ := p
    unfold Input.assignCallback
    by_cases h : name = n
    · subst h
      simp [Input.eraseAction]
    · have hb : (name == n) = false := by simpa using h
      simp only [hb, Bool.false_eq_true, if_false, Input.eraseAction, ih]

theorem eraseAction_assignAction (name : String) (action : InputAction)
    (l : List (String × InputAction)) :
    Input.eraseAction name (Input.assignAction name action l) = Input.eraseAction name l := by
  induction l with
  | nil => simp [Input.assignAction, Input.eraseAction]
  | cons p rest ih =>
    obtain ⟨n, a⟩ := p
    unfold Input.assignAction
    by_cases h : name = n
    · subst h
      simp [Input.eraseAction]
    · have hb : (name == n) = false := by simpa using h
      simp only [hb, Bool.false_eq_true, if_false, Input.eraseAction, ih]

theorem mem_assignAction (name : String) (action : InputAction) (p : String × InputAction)
    (l : List (String × InputAction)) (h : p ∈ Input.assignAction name action l) :
    p = (name, action) ∨ p ∈ l := by
  induction l with
  | nil => left; simpa [Input.assignAction] using h
  | cons q rest ih =>
    obtain ⟨n, a⟩ := q
    unfold Input.assignAction at h
    by_cases hn : name = n
    · subst hn
      simp only [beq_self_eq_true, if_true, List.mem_cons] at h
      rcases h with h | h
      · exact Or.inl h
      · exact Or.inr (List.mem_cons_of_mem _ h)
    · have hb : (name == n) = false := by simpa using hn
      simp only [hb, Bool.false_eq_true, if_false, List.mem_cons] at h
      rcases h with h | h
      · exact Or.inr (by rw [h]; exact List.mem_cons_self _ _)
      · rcases ih h with h1 | h1
        · exact Or.inl h1
        · exact Or.inr (List.mem_cons_of_mem _ h1)

theorem mem_of_mem_eraseAction (name : String) (p : String × InputAction)
    (l : List (String × InputAction)) (h : p ∈ Input.eraseAction name l) : p ∈ l := by
  induction l with
  | nil => simp [Input.eraseAction] at h
  | cons q rest ih =>
    obtain ⟨n, a⟩ := q
    unfold Input.eraseAction at h
    split_ifs at h
    · exact List.mem_cons_of_mem _ h
    · rcases List.mem_cons.1 h with h1 | h1
      · rw [h1]; exact List.mem_cons_self _ _
      · exact List.mem_cons_of_mem _ (ih h1)

theorem mem_updateActions (s : Input) (p : String × InputAction)
    (l : List (String × InputAction)) (h : p ∈ (Input.updateActions s l).1) :
    ∃ q ∈ l, q.1 = p.1 ∧ q.2.callback = p.2.callback := by
  induction l with
  | nil => simp [Input.updateActions] at h
  | cons r rest ih =>
    obtain ⟨n, a⟩ := r
    simp only [Input.updateActions, List.mem_cons] at h
    rcases h with h | h
    · refine ⟨(n, a), List.mem_cons_self _ _, ?_⟩
      rw [h, updateAction_eq]
      exact ⟨rfl, rfl⟩
    · obtain ⟨q, hq, hq2⟩ := ih h
      exact ⟨q, List.mem_cons_of_mem _ hq, hq2⟩

theorem mem_updateActions_trace (s : Input) (cb : Nat) (l : List (String × InputAction))
    (h : cb ∈ (Input.updateActions s l).2) : ∃ q ∈ l, q.2.callback = some cb := by
  induction l with
  | nil => simp [Input.updateActions] at h
  | cons r rest ih =>
    obtain ⟨n, a⟩ := r
    simp only [Input.updateActions, List.mem_append] at h
    rcases h with h | h
    · refine ⟨(n, a), List.mem_cons_self _ _, ?_⟩
      rw [updateAction_eq] at h
      simp only at h
      split_ifs at h
      · unfold Input.invoke at h
        cases hc : a.callback with
        | none => simp [hc] at h
        | some c =>
          simp only [hc, List.mem_singleton] at h
          simp [h]
      · simp at h
    · obtain ⟨q, hq, hq2⟩ := ih h
      exact ⟨q, List.mem_cons_of_mem _ hq, hq2⟩

/-- A use that does not change the bindings invokes no callback that is bound
to no action, and binds none. -/
theorem applyOp_unbound_callback (s : Input) (op : Op) (cb : Nat)
    (h : ∀ p ∈ s.m_Actions, p.2.callback ≠ some cb) (hop : op.rebinds = false) :
    cb ∉ (applyOp s op).2 ∧ ∀ p ∈ (applyOp s op).1.m_Actions, p.2.callback ≠ some cb := by
  cases op with
  | update =>
    simp only [applyOp]
    constructor
    · rw [Update_trace]
      intro hmem
      obtain ⟨q, hq, hq2⟩ := mem_updateActions_trace _ cb _ hmem
      exact h q hq hq2
    · rw [Update_m_Actions]
      intro p hp
      obtain ⟨q, hq, _, hq2⟩ := mem_updateActions _ p _ hp
      rw [← hq2]
      exact h q hq
  | event e =>
    simp only [applyOp, deliver_m_Actions]
    exact ⟨by simp, h⟩
  | getMouseDelta => exact ⟨by simp [applyOp], h⟩
  | mapAction n k b => simp [Op.rebinds] at hop
  | unmapAction n => simp [Op.rebinds] at hop
  | bindActionCallback n c => simp [Op.rebinds] at hop

theorem applyOps_unbound_callback (ops : List Op) (cb : Nat) : ∀ s : Input,
    (∀ p ∈ s.m_Actions, p.2.callback ≠ some cb) → (∀ op ∈ ops, op.rebinds = false) →
    cb ∉ (applyOps s ops).2 ∧ ∀ p ∈ (applyOps s ops).1.m_Actions, p.2.callback ≠ some cb := by
  induction ops with
  | nil => intro s h _; exact ⟨by simp [applyOps], h⟩
  | cons op ops ih =>
    intro s h hops
    have h1 := applyOp_unbound_callback s op cb h (hops op (List.mem_cons_self _ _))
    have h2 := ih _ h1.2 (fun o ho => hops o (List.mem_cons_of_mem _ ho))
    simp only [applyOps, List.mem_append, not_or]
    exact ⟨⟨h1.1, h2.1⟩, h2.2⟩

/-- A use that does not change the bindings keeps the keys and mouse buttons
of the action found under `name`. -/
theorem applyOp_bindings (s : Input) (op : Op) (name : String) (keys mouseButtons : List Int)
    (h : ∃ a, s.m_Actions.lookup name = some a ∧ a.keys = keys ∧ a.mouseButtons = mouseButtons)
    (hop : op.rebinds = false) :
    ∃ a, (applyOp s op).1.m_Actions.lookup name = some a ∧ a.keys = keys ∧
      a.mouseButtons = mouseButtons := by
  cases op with
  | update =>
    obtain ⟨a, ha, hk, hb⟩ := h
    refine ⟨(Input.updateAction s.UpdateKeyStates.UpdateMouseButtonStates a).1, ?_, ?_, ?_⟩
    · rw [applyOp, Update_m_Actions, updateActions_lookup, ha]; rfl
    · rw [updateAction_eq]; exact hk
    · rw [updateAction_eq]; exact hb
  | event e => simpa only [applyOp, deliver_m_Actions] using h
  | getMouseDelta => exact h
  | mapAction n k b => simp [Op.rebinds] at hop
  | unmapAction n => simp [Op.rebinds] at hop
  | bindActionCallback n c => simp [Op.rebinds] at hop

theorem applyOps_bindings (ops : List Op) (name : String) (keys mouseButtons : List Int) :
    ∀ s : Input,
    (∃ a, s.m_Actions.lookup name = some a ∧ a.keys = keys ∧ a.mouseButtons = mouseButtons) →
    (∀ op ∈ ops, op.rebinds = false) →
    ∃ a, (applyOps s ops).1.m_Actions.lookup name = some a ∧ a.keys = keys ∧
      a.mouseButtons = mouseButtons := by
  induction ops with
  | nil => intro s h _; exact h
  | cons op ops ih =>
    intro s h hops
    exact ih _ (applyOp_bindings s op name keys mouseButtons h (hops op (List.mem_cons_self _ _)))
      (fun o ho => hops o (List.mem_cons_of_mem _ ho))

theorem remap_m_Actions (s : Input) (name : String) (K : Int) (callback : Option Nat) :
    ((((s.MapAction name [K] []).BindActionCallback name callback).UnmapAction name).MapAction
        name [K] []).m_Actions =
      Input.assignAction name ⟨name, [K], [], none, false⟩ (Input.eraseAction name s.m_Actions) := by
  simp only [Input.MapAction, Input.BindActionCallback, Input.UnmapAction,
    eraseAction_assignCallback, eraseAction_assignAction]

/-- C13: after `MapAction(name, {K})`, `BindActionCallback(name, cb)`,
`UnmapAction(name)` and a second `MapAction(name, {K})`, the entry of `name`
is the one a first mapping creates (no callback, inactive); the unmapped
action in between is inactive; and in every later use of the instance that
does not change the bindings, no `Update()` invokes `cb` (which is bound to no
other action), while an `Update()` made with `K` pressed or held makes the
action active. -/
theorem remap_is_fresh (s : Input) (name : String) (K : Int) (cb : Nat) (ops : List Op)
    (hu : actionNamesUnique s) (hK : 0 ≤ K ∧ K < GLFW_KEY_LAST)
    (hcb : ∀ p ∈ s.m_Actions, p.1 ≠ name → p.2.callback ≠ some cb)
    (hops : ∀ op ∈ ops, op.rebinds = false)
    (hheld :
      (applyOps ((((s.MapAction name [K] []).BindActionCallback name (some cb)).UnmapAction
          name).MapAction name [K] []) ops).1.GetKeyState K = KeyState.Pressed ∨
      (applyOps ((((s.MapAction name [K] []).BindActionCallback name (some cb)).UnmapAction
          name).MapAction name [K] []) ops).1.GetKeyState K = KeyState.Held) :
    ((((s.MapAction name [K] []).BindActionCallback name (some cb)).UnmapAction
        name).MapAction name [K] []).m_Actions.lookup name
      = some ⟨name, [K], [], none, false⟩ ∧
    (((s.MapAction name [K] []).BindActionCallback name (some cb)).UnmapAction
        name).IsActionActive name = false ∧
    cb ∉ (applyOps ((((s.MapAction name [K] []).BindActionCallback name (some cb)).UnmapAction
        name).MapAction name [K] []) ops).2 ∧
    cb ∉ (applyOps ((((s.MapAction name [K] []).BindActionCallback name (some cb)).UnmapAction
        name).MapAction name [K] []) ops).1.Update.2 ∧
    (applyOps ((((s.MapAction name [K] []).BindActionCallback name (some cb)).UnmapAction
        name).MapAction name [K] []) ops).1.Update.1.IsActionActive name = true := by
  have hlook := MapAction_lookup (((s.MapAction name [K] []).BindActionCallback name
    (some cb)).UnmapAction name) name [K] []
  have hnocb : ∀ p ∈ ((((s.MapAction name [K] []).BindActionCallback name (some cb)).UnmapAction
      name).MapAction name [K] []).m_Actions, p.2.callback ≠ some cb := by
    rw [remap_m_Actions]
    intro p hp
    rcases mem_assignAction _ _ _ _ hp with h | h
    · rw [h]; simp
    · have hmem := mem_of_mem_eraseAction _ _ _ h
      have hkey : p.1 ∈ (Input.eraseAction name s.m_Actions).map Prod.fst :=
        List.mem_map_of_mem _ h
      rw [eraseAction_keys] at hkey
      exact hcb p hmem ((List.Nodup.mem_erase_iff hu).1 hkey).1
  have hinactive : (((s.MapAction name [K] []).BindActionCallback name (some cb)).UnmapAction
      name).IsActionActive name = false := by
    have hl : (((s.MapAction name [K] []).BindActionCallback name (some cb)).UnmapAction
        name).m_Actions.lookup name = none := by
      apply lookup_eq_none_of_not_mem
      simp only [Input.MapAction, Input.BindActionCallback, Input.UnmapAction,
        eraseAction_assignCallback, eraseAction_assignAction, eraseAction_keys]
      exact hu.not_mem_erase
    rw [IsActionActive_of_lookup, hl]
  have htrace := applyOps_unbound_callback ops cb _ hnocb hops
  have hupd := applyOp_unbound_callback _ Op.update cb htrace.2 rfl
  obtain ⟨a, ha, hkeys, _⟩ := applyOps_bindings ops name [K] [] _ ⟨_, hlook, rfl, rfl⟩ hops
  refine ⟨hlook, hinactive, htrace.1, hupd.1, ?_⟩
  rw [Update_IsActionActive_iff _ name a ha]
  exact Or.inl ⟨K, by rw [hkeys]; exact List.mem_singleton_self K, hK, hheld⟩

theorem remap_is_fresh_witness :
    (actionNamesUnique spaceDown ∧ ((0 : Int) ≤ 65 ∧ (65 : Int) < GLFW_KEY_LAST)) ∧
    (7 ∉ (applyOps ((((spaceDown.MapAction "Jump" [65] []).BindActionCallback "Jump"
        (some 7)).UnmapAction "Jump").MapAction "Jump" [65] [])
        [Op.update, Op.event (Event.key 65 GLFW_REPEAT)]).1.Update.2 ∧
      (applyOps ((((spaceDown.MapAction "Jump" [65] []).BindActionCallback "Jump"
        (some 7)).UnmapAction "Jump").MapAction "Jump" [65] [])
        [Op.update, Op.event (Event.key 65 GLFW_REPEAT)]).1.Update.1.IsActionActive "Jump"
        = true) :=
  ⟨⟨by simp [actionNamesUnique, spaceDown], by decide⟩,
    (remap_is_fresh spaceDown "Jump" 65 7 [Op.update, Op.event (Event.key 65 GLFW_REPEAT)]
      (by simp [actionNamesUnique, spaceDown]) (by decide)
      (by intro p hp hne; simp [spaceDown] at hp; rw [hp] at hne; exact absurd rfl hne)
      (by intro op hop; simp at hop; rcases hop with h | h <;> rw [h] <;> rfl)
      (Or.inr (by
        have h2 := (KeyCallback_GetKeyState
          (applyOps ((((spaceDown.MapAction "Jump" [65] []).BindActionCallback "Jump"
            (some 7)).UnmapAction "Jump").MapAction "Jump" [65] []) [Op.update]).1
          65 (by decide)).2.1
        simpa [applyOps, applyOp, pollEvents, deliver] using h2))).2.2.2⟩

/-! ## Properties of cursor and scroll tracking -/

theorem deliver_m_FirstMouse (s : Input) (ev : Event) (h : s.m_FirstMouse = false) :
    (deliver s ev).m_FirstMouse = false := by
  cases ev with
  | key k a =>
    simp only [deliver, Input.KeyCallback]
    split_ifs <;> exact h
  | mouseButton b a =>
    simp only [deliver, Input.MouseButtonCallback]
    split_ifs <;> exact h
  | cursorPos x y => simp [deliver, Input.CursorPosCallback, h]
  | scroll x y => exact h

theorem Update_m_FirstMouse (s : Input) : s.Update.1.m_FirstMouse = s.m_FirstMouse := by
  simp only [Input.Update, Input.UpdateActionStates, Input.UpdateMouseButtonStates,
    Input.UpdateKeyStates]

theorem applyOp_m_FirstMouse (s : Input) (op : Op) (h : s.m_FirstMouse = false) :
    (applyOp s op).1.m_FirstMouse = false := by
  cases op with
  | update => rw [applyOp, Update_m_FirstMouse]; exact h
  | event e => exact deliver_m_FirstMouse s e h
  | getMouseDelta => exact h
  | mapAction n k b => exact h
  | unmapAction n => exact h
  | bindActionCallback n c => exact h

theorem applyOps_m_FirstMouse (ops : List Op) : ∀ s : Input, s.m_FirstMouse = false →
    (applyOps s ops).1.m_FirstMouse = false := by
  induction ops with
  | nil => intro s h; exact h
  | cons op ops ih =>
    intro s h
    exact ih _ (applyOp_m_FirstMouse s op h)

theorem CursorPosCallback_later (s : Input) (x y : ℚ) (h : s.m_FirstMouse = false) :
    (s.CursorPosCallback x y).m_LastMouseX = s.m_LastMouseX ∧
    (s.CursorPosCallback x y).m_LastMouseY = s.m_LastMouseY ∧
    (s.CursorPosCallback x y).GetMousePosition = (x, y) := by
  simp [Input.CursorPosCallback, Input.GetMousePosition, h]

/-- C16: in every input state, a second `GetMouseDelta` right after a first
one (no cursor-movement event in between) returns `(0, 0)`. -/
theorem GetMouseDelta_twice (s : Input) :
    s.GetMouseDelta.2.GetMouseDelta.1 = (0, 0) := by
  simp [Input.GetMouseDelta]

/-- C17: the first cursor-movement event (the one that finds `m_FirstMouse`
set, as the constructor leaves it) seeds the last position with its own
position, so `GetMouseDelta` right after it returns `(0, 0)` whatever the
coordinates; after it the flag is cleared for good, whatever is done with the
instance, and a later movement event overwrites the current position only. -/
theorem first_cursor_event_seeds (s : Input) (x y x2 y2 : ℚ) (ops : List Op)
    (h : s.m_FirstMouse = true) :
    Input.init.m_FirstMouse = true ∧
    (s.CursorPosCallback x y).GetMouseDelta.1 = (0, 0) ∧
    ((s.CursorPosCallback x y).m_LastMouseX = x ∧ (s.CursorPosCallback x y).m_LastMouseY = y) ∧
    (applyOps (s.CursorPosCallback x y) ops).1.m_FirstMouse = false ∧
    (((applyOps (s.CursorPosCallback x y) ops).1.CursorPosCallback x2 y2).m_LastMouseX
        = (applyOps (s.CursorPosCallback x y) ops).1.m_LastMouseX ∧
      ((applyOps (s.CursorPosCallback x y) ops).1.CursorPosCallback x2 y2).m_LastMouseY
        = (applyOps (s.CursorPosCallback x y) ops).1.m_LastMouseY ∧
      ((applyOps (s.CursorPosCallback x y) ops).1.CursorPosCallback x2 y2).GetMousePosition
        = (x2, y2)) := by
  have hf : (s.CursorPosCallback x y).m_FirstMouse = false := by
    simp [Input.CursorPosCallback, h]
  have hops := applyOps_m_FirstMouse ops _ hf
  exact ⟨rfl, by simp [Input.CursorPosCallback, Input.GetMouseDelta, h],
    by simp [Input.CursorPosCallback, h], hops, CursorPosCallback_later _ x2 y2 hops⟩

theorem first_cursor_event_seeds_witness :
    Input.init.m_FirstMouse = true ∧
    (Input.init.CursorPosCallback 640 360).GetMouseDelta.1 = (0, 0) :=
  ⟨rfl, (first_cursor_event_seeds Input.init 640 360 0 0 [] rfl).2.1⟩

theorem deliver_scroll_other (s : Input) (ev : Event) (h : ev.isScroll = false) :
    (deliver s ev).GetMouseScrollDelta = s.GetMouseScrollDelta := by
  cases ev with
  | key k a =>
    simp only [deliver, Input.KeyCallback, Input.GetMouseScrollDelta]
    split_ifs <;> rfl
  | mouseButton b a =>
    simp only [deliver, Input.MouseButtonCallback, Input.GetMouseScrollDelta]
    split_ifs <;> rfl
  | cursorPos x y =>
    simp only [deliver, Input.CursorPosCallback, Input.GetMouseScrollDelta]
    split_ifs <;> rfl
  | scroll x y => simp [Event.isScroll] at h

theorem pollEvents_scroll_other (evs : List Event) : ∀ s : Input,
    (∀ ev ∈ evs, ev.isScroll = false) →
    (pollEvents s evs).GetMouseScrollDelta = s.GetMouseScrollDelta := by
  induction evs with
  | nil => intro s _; rfl
  | cons ev evs ih =>
    intro s h
    have h1 := ih (deliver s ev) (fun e he => h e (List.mem_cons_of_mem _ he))
    have h2 := deliver_scroll_other s ev (h ev (List.mem_cons_self _ _))
    simp only [pollEvents, List.foldl_cons] at h1 ⊢
    rw [h1, h2]

/-- C18 (counterexample): after an `Update()`, two scroll events with vertical
offsets 1 and 2 leave `GetMouseScrollDelta()` at 2, not at `1 + 2`. -/
theorem scroll_not_accumulated :
    (pollEvents Input.init.Update.1 [Event.scroll 0 1, Event.scroll 0 2]).GetMouseScrollDelta
      = 2 ∧
    (pollEvents Input.init.Update.1 [Event.scroll 0 1, Event.scroll 0 2]).GetMouseScrollDelta
      ≠ 1 + 2 := by
  constructor
  · rfl
  · show (2 : ℚ) ≠ 1 + 2
    norm_num

/-- C18 (as amended): `GetMouseScrollDelta()` read before the next `Update()`
returns the vertical offset of the last scroll event delivered since the
previous `Update()`, whatever the earlier offsets were, and `0` when no scroll
event was delivered. -/
theorem scroll_last_event (s : Input) (before after rest : List Event) (xoffset yoffset : ℚ)
    (hafter : ∀ ev ∈ after, ev.isScroll = false) (hrest : ∀ ev ∈ rest, ev.isScroll = false) :
    (pollEvents s.Update.1 (before ++ Event.scroll xoffset yoffset :: after)).GetMouseScrollDelta
      = yoffset ∧
    (pollEvents s.Update.1 rest).GetMouseScrollDelta = 0 := by
  constructor
  · rw [pollEvents_append]
    have := pollEvents_scroll_other after
      (deliver (pollEvents s.Update.1 before) (Event.scroll xoffset yoffset)) hafter
    simpa [pollEvents, deliver, Input.ScrollCallback, Input.GetMouseScrollDelta] using this
  · rw [pollEvents_scroll_other rest _ hrest]
    simp [Input.GetMouseScrollDelta, Input.Update]

theorem scroll_last_event_witness :
    (∀ ev ∈ [Event.key 65 GLFW_PRESS], ev.isScroll = false) ∧
    (pollEvents Input.init.Update.1
      ([Event.scroll 0 1, Event.scroll 0 2] ++ Event.scroll 0 (-3) ::
        [Event.key 65 GLFW_PRESS])).GetMouseScrollDelta = -3 :=
  ⟨by intro ev hev; simp at hev; rw [hev]; rfl,
    (scroll_last_event Input.init [Event.scroll 0 1, Event.scroll 0 2] [Event.key 65 GLFW_PRESS]
      [] 0 (-3) (by intro ev hev; simp at hev; rw [hev]; rfl)
      (by intro ev hev; simp at hev)).1⟩

/-! ## Properties of the frame clock -/

/-- C19: a newly constructed timer and a timer just `Reset` report
`deltaTime = 0` and `totalTime = 0`; after the first `Update()` that follows,
whatever the clock reads, `totalTime` equals `deltaTime`, both being the clock
time elapsed since the construction or the reset; that time is strictly
positive exactly when the clock has advanced. -/
theorem timer_first_update (t : Timer) (start now : ℚ) :
    ((Timer.init start).m_DeltaTime = 0 ∧ (Timer.init start).m_TotalTime = 0) ∧
    ((t.Reset start).m_DeltaTime = 0 ∧ (t.Reset start).m_TotalTime = 0) ∧
    (((Timer.init start).Update now).m_DeltaTime = now - start ∧
      ((Timer.init start).Update now).m_TotalTime = ((Timer.init start).Update now).m_DeltaTime) ∧
    (((t.Reset start).Update now).m_DeltaTime = now - start ∧
      ((t.Reset start).Update now).m_TotalTime = ((t.Reset start).Update now).m_DeltaTime) ∧
    ((0 < ((Timer.init start).Update now).m_DeltaTime ↔ start < now) ∧
      (0 < ((t.Reset start).Update now).m_DeltaTime ↔ start < now)) := by
  simp only [Timer.init, Timer.Reset, Timer.Update, zero_add, and_self, true_and, sub_pos]

theorem timer_monotone_aux (readings : List ℚ) : ∀ (t : Timer) (now : ℚ), 0 ≤ t.m_TotalTime →
    List.Chain (· ≤ ·) t.m_LastUpdate (readings ++ [now]) →
    0 ≤ ((t.updates readings).Update now).m_DeltaTime ∧
    0 ≤ ((t.updates readings).Update now).m_TotalTime ∧
    (t.updates readings).m_TotalTime ≤ ((t.updates readings).Update now).m_TotalTime := by
  induction readings with
  | nil =>
    intro t now ht hc
    have h : t.m_LastUpdate ≤ now := by simpa using hc
    simp only [Timer.updates, List.foldl_nil, Timer.Update]
    refine ⟨by linarith, by linarith, by linarith⟩
  | cons r rs ih =>
    intro t now ht hc
    rw [List.cons_append, List.chain_cons] at hc
    have h1 : 0 ≤ (t.Update r).m_TotalTime := by
      simp only [Timer.Update]
      linarith [hc.1]
    exact ih (t.Update r) now h1 hc.2

/-- C20: from a timer whose `totalTime` is non-negative (as after construction
or `Reset`), along any sequence of `Update()` calls whose clock readings are
non-decreasing (the first one not before the timer's last reading), the last
call of the sequence, hence every call, leaves `deltaTime ≥ 0` and
`totalTime ≥ 0` and does not decrease `totalTime`. -/
theorem timer_monotone (t : Timer) (start : ℚ) (readings : List ℚ) (now : ℚ)
    (ht : 0 ≤ t.m_TotalTime)
    (hc : List.Chain (· ≤ ·) t.m_LastUpdate (readings ++ [now]))
    (hs : List.Chain (· ≤ ·) start (readings ++ [now])) :
    (0 ≤ ((t.updates readings).Update now).m_DeltaTime ∧
      0 ≤ ((t.updates readings).Update now).m_TotalTime ∧
      (t.updates readings).m_TotalTime ≤ ((t.updates readings).Update now).m_TotalTime) ∧
    (0 ≤ (((Timer.init start).updates readings).Update now).m_DeltaTime ∧
      0 ≤ (((Timer.init start).updates readings).Update now).m_TotalTime ∧
      ((Timer.init start).updates readings).m_TotalTime
        ≤ (((Timer.init start).updates readings).Update now).m_TotalTime) :=
  ⟨timer_monotone_aux readings t now ht hc,
    timer_monotone_aux readings (Timer.init start) now (le_refl _) hs⟩

theorem timer_monotone_witness :
    (0 ≤ (Timer.init 0).m_TotalTime ∧
      List.Chain (· ≤ ·) (Timer.init 0).m_LastUpdate ([1 / 60, 1 / 60, 1 / 20] ++ [(1 : ℚ)])) ∧
    ((Timer.init 0).updates [1 / 60, 1 / 60, 1 / 20]).m_TotalTime
      ≤ (((Timer.init 0).updates [1 / 60, 1 / 60, 1 / 20]).Update 1).m_TotalTime :=
  ⟨⟨le_refl _, by simp [Timer.init]; norm_num⟩,
    (timer_monotone (Timer.init 0) 0 [1 / 60, 1 / 60, 1 / 20] 1 (le_refl _)
      (by simp [Timer.init]; norm_num) (by simp; norm_num)).1.2.2⟩

/-! ## Properties of engine start-up -/

/-- C21: if window creation fails (`glfwInit` fails or no window is
returned), `Engine::Init` returns false, no timer and no input system are
created, the running flag stays false, and `Engine::Run` called afterwards
executes zero loop iterations and leaves the engine as it was. -/
theorem Init_failure_never_runs (p : Platform) (now : ℚ) (frames : List Frame)
    (h : p.glfwInit = false ∨ p.glfwCreateWindow = false) :
    (EngineObject.init.Init p now).1 = false ∧
    (EngineObject.init.Init p now).2.m_Input = none ∧
    (EngineObject.init.Init p now).2.m_Timer = none ∧
    (EngineObject.init.Init p now).2.m_Running = false ∧
    (EngineObject.init.Init p now).2.Run frames = some ((EngineObject.init.Init p now).2, 0) := by
  have hw : Window.Init p = false := by
    unfold Window.Init
    rcases h with h | h <;> simp [h]
  simp [EngineObject.Init, EngineObject.init, EngineObject.Run, hw]

theorem Init_failure_never_runs_witness :
    ((⟨true, false⟩ : Platform).glfwInit = false ∨
      (⟨true, false⟩ : Platform).glfwCreateWindow = false) ∧
    (EngineObject.init.Init ⟨true, false⟩ 0).1 = false ∧
    ((EngineObject.init.Init ⟨true, false⟩ 0).2.Run [⟨1, [], false⟩, ⟨2, [], true⟩]).map Prod.snd
      = some 0 :=
  ⟨Or.inr rfl,
    (Init_failure_never_runs ⟨true, false⟩ 0 [⟨1, [], false⟩, ⟨2, [], true⟩] (Or.inr rfl)).1,
    by rw [(Init_failure_never_runs ⟨true, false⟩ 0 [⟨1, [], false⟩, ⟨2, [], true⟩]
      (Or.inr rfl)).2.2.2.2]; rfl⟩

/-! ## Properties of the resource cache -/

theorem lookup_assignResource_self (name : String) (resource : Nat) (l : List (String × Nat)) :
    (ResourceManager.assignResource name resource l).lookup name ≠ none := by
  induction l with
  | nil => simp [ResourceManager.assignResource, List.lookup]
  | cons q rest ih =>
    obtain ⟨n, r⟩ := q
    unfold ResourceManager.assignResource
    by_cases h : name = n
    · subst h
      simp [List.lookup]
    · have hb : (name == n) = false := by simpa using h
      simp only [hb, Bool.false_eq_true, if_false, List.lookup_cons]
      exact ih

theorem loadResource_present (m : ResourceManager) (T name path : String) (resource : Nat)
    (loadFromFile : String → LoadOutcome) (h : m.hasResource T name = true) :
    m.loadResource T name path resource loadFromFile =
      (some m, [ResourceEvent.log LogLevel.Warning
        ("Resource \x27" ++ name ++ "\x27 already exists. Skipping load.")]) := by
  unfold ResourceManager.hasResource at h
  unfold ResourceManager.loadResource
  rw [if_pos h]

theorem loadResource_loaded (m : ResourceManager) (T name path : String) (resource : Nat)
    (loadFromFile : String → LoadOutcome) (h : m.hasResource T name = false)
    (hl : loadFromFile path = LoadOutcome.loaded) :
    ∃ m1, (m.loadResource T name path resource loadFromFile).1 = some m1 ∧
      m1.hasResource T name = true := by
  unfold ResourceManager.hasResource at h
  unfold ResourceManager.loadResource
  have hn : ¬ ((m.resources T).lookup name != none) = true := by simp [h]
  rw [if_neg hn, hl]
  refine ⟨_, rfl, ?_⟩
  unfold ResourceManager.hasResource
  simp only [Function.update_same]
  have := lookup_assignResource_self name resource (m.resources T)
  simpa using this

/-- C22: when `name` is already present for `T`, `loadResource<T>(name, path)`
leaves the store as it is and does nothing but log the warning: the loader is
not run, whatever it would do, and the stored object is not replaced.  Hence
after a first successful load of an absent name, a second load of the same
name leaves the store as the first one left it, with `hasResource<T>(name)`
true. -/
theorem loadResource_idempotent (m : ResourceManager) (T name path path2 : String)
    (resource resource2 : Nat) (loadFromFile loadFromFile2 : String → LoadOutcome)
    (hpresent : m.hasResource T name = true) :
    (m.loadResource T name path resource loadFromFile =
      (some m, [ResourceEvent.log LogLevel.Warning
        ("Resource \x27" ++ name ++ "\x27 already exists. Skipping load.")])) ∧
    (∀ (m0 m1 : ResourceManager), m0.hasResource T name = false →
      loadFromFile path = LoadOutcome.loaded →
      (m0.loadResource T name path resource loadFromFile).1 = some m1 →
      (m1.loadResource T name path2 resource2 loadFromFile2).1 = some m1 ∧
        m1.hasResource T name = true) := by
  refine ⟨loadResource_present m T name path resource loadFromFile hpresent, ?_⟩
  intro m0 m1 h0 hl h1
  obtain ⟨m1', hm1, hhas⟩ := loadResource_loaded m0 T name path resource loadFromFile h0 hl
  rw [h1] at hm1
  cases hm1
  rw [loadResource_present m1 T name path2 resource2 loadFromFile2 hhas]
  exact ⟨rfl, hhas⟩

theorem loadResource_idempotent_witness :
    testStore.hasResource "TestResource" "test1" = true ∧
    testStore.loadResource "TestResource" "test1" "other.txt" 2 (fun _ => LoadOutcome.loaded) =
      (some testStore, [ResourceEvent.log LogLevel.Warning
        ("Resource \x27" ++ "test1" ++ "\x27 already exists. Skipping load.")]) :=
  ⟨by decide,
    (loadResource_idempotent testStore "TestResource" "test1" "other.txt" "other.txt" 2 2
      (fun _ => LoadOutcome.loaded) (fun _ => LoadOutcome.loaded) (by decide)).1⟩

/-- C23: for a name that is absent for `T`, a load whose loader returns false
or throws a `std::exception` returns normally and leaves the store unchanged,
so `hasResource<T>(name)` is still false; and `getResource<T>(name)` returns
`nullptr` for an absent name. -/
theorem failed_load_adds_nothing (m : ResourceManager) (T name path what : String)
    (resource : Nat) (loadFromFile : String → LoadOutcome)
    (habsent : m.hasResource T name = false)
    (hfail : loadFromFile path = LoadOutcome.failed ∨
      loadFromFile path = LoadOutcome.stdException what) :
    (m.loadResource T name path resource loadFromFile).1 = some m ∧
    m.hasResource T name = false ∧
    (m.getResource T name).1 = none := by
  unfold ResourceManager.hasResource at habsent
  have hn : ¬ ((m.resources T).lookup name != none) = true := by simp [habsent]
  have hnone : (m.resources T).lookup name = none := by simpa using habsent
  refine ⟨?_, ?_, ?_⟩
  · unfold ResourceManager.loadResource
    rw [if_neg hn]
    rcases hfail with h | h <;> rw [h]
  · unfold ResourceManager.hasResource
    exact habsent
  · unfold ResourceManager.getResource
    rw [hnone]

theorem failed_load_adds_nothing_witness :
    (testStore.hasResource "TestResource" "test2" = false ∧
      (testLoader "nonexistent.txt" = LoadOutcome.failed ∨
        testLoader "nonexistent.txt" = LoadOutcome.stdException "")) ∧
    (testStore.loadResource "TestResource" "test2" "nonexistent.txt" 2 testLoader).1
      = some testStore :=
  ⟨⟨by decide, Or.inl (by decide)⟩,
    (failed_load_adds_nothing testStore "TestResource" "test2" "nonexistent.txt" "" 2 testLoader
      (by decide) (Or.inl (by decide))).1⟩

/-- C24 (what the code does): `clearAllResources()` leaves every store as it
is; a resource loaded before the call is still reported by
`hasResource<T>(name)` after it, whereas `clearResources<T>()` does empty the
store of `T`. -/
theorem clearAllResources_clears_nothing (m : ResourceManager) (T name : String) :
    (m.clearAllResources).1 = m ∧
    testStore.hasResource "TestResource" "test1" = true ∧
    (testStore.clearAllResources).1.hasResource "TestResource" "test1" = true ∧
    (m.clearResources T).1.hasResource T name = false := by
  refine ⟨rfl, by decide, by decide, ?_⟩
  simp [ResourceManager.clearResources, ResourceManager.hasResource]

/-! ## Properties of vertex and mesh -/

/-- C25 (what the code does): `IsValid()` depends only on the vertex-array
name OpenGL hands out, not on the lists: with the same answer of OpenGL, a
mesh built from empty lists and a mesh built from any lists report the same
validity, and with a non-zero name (a successful `glGenVertexArrays`) the
empty mesh reports `IsValid() == true`.  The counts are the lengths of the
lists passed in. -/
theorem Mesh_validity_ignores_lists (vertices : List Vertex) (indices : List Nat) (gl : GlNames) :
    (Mesh.new [] [] gl).IsValid = (Mesh.new vertices indices gl).IsValid ∧
    (Mesh.new [] [] ⟨1, 2, 3⟩).IsValid = true ∧
    (Mesh.new vertices indices gl).GetVertexCount = vertices.length ∧
    (Mesh.new vertices indices gl).GetIndexCount = indices.length := by
  refine ⟨rfl, by decide, rfl, rfl⟩

/-- C26 (what the code does): the defaulted constructor default-constructs
the three members, so a default-constructed `Vertex` holds whatever GLM's
default vectors hold; with a GLM that fills with zeros its `Color` is
`(0, 0, 0, 0)`, not `(1, 1, 1, 1)`.  The other constructor does use
`(0, 0)` and `(1, 1, 1, 1)` for its omitted arguments. -/
theorem Vertex_default_color (glm : GlmDefault) (position : Vec3) :
    (Vertex.default glm).Position = glm.vec3 ∧
    (Vertex.default glm).TexCoords = glm.vec2 ∧
    (Vertex.default glm).Color = glm.vec4 ∧
    (Vertex.default GlmDefault.zeros).Color = ⟨0, 0, 0, 0⟩ ∧
    (Vertex.default GlmDefault.zeros).Color ≠ ⟨1, 1, 1, 1⟩ ∧
    (Vertex.new position none none).TexCoords = ⟨0, 0⟩ ∧
    (Vertex.new position none none).Color = ⟨1, 1, 1, 1⟩ := by
  refine ⟨rfl, rfl, rfl, rfl, ?_, rfl, rfl⟩
  simp [Vertex.default, GlmDefault.zeros]

/-! ## Properties of the single-instance bookkeeping -/

/-- C27 (what the code does): after a first `Input` has been constructed and
destroyed, no instance is alive but `s_Instance` still holds the address of
the destroyed one, because the destructor does not reset it; the assertion
`s_Instance == nullptr` of the next constructor therefore fails (it is
reported unless `NDEBUG` removes the check). -/
theorem second_Input_fails_assertion (first second : Nat) :
    (InputStatics.construct false InputStatics.start first false).1 = [] ∧
    ((InputStatics.construct false InputStatics.start first false).2.destroy first).live = [] ∧
    ((InputStatics.construct false InputStatics.start first false).2.destroy first).s_Instance
      = some first ∧
    (InputStatics.construct false
        ((InputStatics.construct false InputStatics.start first false).2.destroy first)
        second false).1 = ["Input system already exists"] ∧
    (InputStatics.construct true
        ((InputStatics.construct true InputStatics.start first false).2.destroy first)
        second false).1 = [] := by
  simp [InputStatics.construct, InputStatics.destroy, InputStatics.start, ASSERT]

/-! ## Properties of the input state between device events -/

theorem Update_settled (s : Input) : s.Update.1.settled := by
  refine ⟨?_, ?_, ?_⟩
  · intro i
    rw [Update_m_KeyStates]
    cases h : s.m_KeyStates i <;> simp [tickAdvance, h]
  · intro j
    rw [Update_m_MouseButtonStates]
    cases h : s.m_MouseButtonStates j <;> simp [tickAdvance, h]
  · simp only [Input.Update]

theorem applyOp_settled (s : Input) (op : Op) (h : s.settled) (hop : op.isEvent = false) :
    (applyOp s op).1.settled := by
  cases op with
  | update => exact Update_settled s
  | event e => simp [Op.isEvent] at hop
  | getMouseDelta => exact h
  | mapAction n k b => exact h
  | unmapAction n => exact h
  | bindActionCallback n c => exact h

theorem applyOps_settled (ops : List Op) : ∀ s : Input, s.settled →
    (∀ op ∈ ops, op.isEvent = false) → (applyOps s ops).1.settled := by
  induction ops with
  | nil => intro s h _; exact h
  | cons op ops ih =>
    intro s h hops
    exact ih _ (applyOp_settled s op h (hops op (List.mem_cons_self _ _)))
      (fun o ho => hops o (List.mem_cons_of_mem _ ho))

theorem settled_queries (s : Input) (h : s.settled) (key button : Int) :
    s.IsKeyPressed key = false ∧ s.IsKeyJustReleased key = false ∧
    s.IsMouseButtonPressed button = false ∧ s.IsMouseButtonJustReleased button = false ∧
    s.GetMouseScrollDelta = 0 := by
  refine ⟨?_, ?_, ?_, ?_, h.2.2⟩
  · unfold Input.IsKeyPressed
    split
    · rfl
    · simpa using (h.1 _).1
  · unfold Input.IsKeyJustReleased
    split
    · rfl
    · simpa using (h.1 _).2
  · unfold Input.IsMouseButtonPressed
    split
    · rfl
    · simpa using (h.2.1 _).1
  · unfold Input.IsMouseButtonJustReleased
    split
    · rfl
    · simpa using (h.2.1 _).2

/-- C28: right after `Input::Update()` returns, and after any further use of
the instance that is not the delivery of a device event, no key and no mouse
button is `Pressed` or `JustReleased` and the scroll delta is 0; so
`IsKeyPressed`, `IsKeyJustReleased`, their mouse-button counterparts and
`GetMouseScrollDelta` report false and 0 for every id. -/
theorem no_transient_state_after_Update (s : Input) (ops : List Op)
    (i : Fin (GLFW_KEY_LAST + 1)) (j : Fin MouseButtonCount) (key button : Int)
    (hops : ∀ op ∈ ops, op.isEvent = false) :
    ((s.Update.1.m_KeyStates i ≠ KeyState.Pressed ∧
        s.Update.1.m_KeyStates i ≠ KeyState.JustReleased) ∧
      (s.Update.1.m_MouseButtonStates j ≠ KeyState.Pressed ∧
        s.Update.1.m_MouseButtonStates j ≠ KeyState.JustReleased) ∧
      s.Update.1.m_MouseScrollDelta = 0) ∧
    (((applyOps s.Update.1 ops).1.m_KeyStates i ≠ KeyState.Pressed ∧
        (applyOps s.Update.1 ops).1.m_KeyStates i ≠ KeyState.JustReleased) ∧
      ((applyOps s.Update.1 ops).1.m_MouseButtonStates j ≠ KeyState.Pressed ∧
        (applyOps s.Update.1 ops).1.m_MouseButtonStates j ≠ KeyState.JustReleased)) ∧
    ((applyOps s.Update.1 ops).1.IsKeyPressed key = false ∧
      (applyOps s.Update.1 ops).1.IsKeyJustReleased key = false ∧
      (applyOps s.Update.1 ops).1.IsMouseButtonPressed button = false ∧
      (applyOps s.Update.1 ops).1.IsMouseButtonJustReleased button = false ∧
      (applyOps s.Update.1 ops).1.GetMouseScrollDelta = 0) := by
  have h0 := Update_settled s
  have h1 := applyOps_settled ops _ h0 hops
  exact ⟨⟨h0.1 i, h0.2.1 j, h0.2.2⟩, ⟨h1.1 i, h1.2.1 j⟩, settled_queries _ h1 key button⟩

theorem no_transient_state_after_Update_witness :
    (∀ op ∈ [Op.getMouseDelta, Op.mapAction "Jump" [32] [], Op.update], op.isEvent = false) ∧
    (applyOps spaceDown.Update.1 [Op.getMouseDelta, Op.mapAction "Jump" [32] [],
      Op.update]).1.IsKeyPressed 32 = false :=
  ⟨by intro op hop; simp at hop; rcases hop with h | h | h <;> rw [h] <;> rfl,
    (no_transient_state_after_Update spaceDown
      [Op.getMouseDelta, Op.mapAction "Jump" [32] [], Op.update] 0 0 32 0
      (by intro op hop; simp at hop; rcases hop with h | h | h <;> rw [h] <;> rfl)).2.2.1⟩

/-! ## Properties of the key id `GLFW_KEY_LAST` -/

theorem KeyCallback_last (s : Input) (action : Int) :
    s.KeyCallback GLFW_KEY_LAST action = s := by
  have h : ¬ ((GLFW_KEY_LAST : Int) ≥ 0 ∧ (GLFW_KEY_LAST : Int) < GLFW_KEY_LAST) := by omega
  unfold Input.KeyCallback
  rw [dif_neg h]

theorem deliver_lastKeySlot (s : Input) (ev : Event) :
    (deliver s ev).m_KeyStates lastKeySlot = s.m_KeyStates lastKeySlot := by
  cases ev with
  | key k a =>
    by_cases hk : k = GLFW_KEY_LAST
    · rw [hk]
      simp only [deliver, KeyCallback_last]
    · exact KeyCallback_other_slot s k a lastKeySlot (fun h => hk h.symm)
  | mouseButton b a => simp [deliver, MouseButtonCallback_m_KeyStates]
  | cursorPos x y =>
    simp only [deliver, Input.CursorPosCallback]
    split_ifs <;> rfl
  | scroll x y => rfl

theorem applyOp_lastKeySlot (s : Input) (op : Op)
    (h : s.m_KeyStates lastKeySlot = KeyState.Released) :
    (applyOp s op).1.m_KeyStates lastKeySlot = KeyState.Released := by
  cases op with
  | update =>
    simp only [applyOp]
    rw [Update_m_KeyStates]
    simp [h, tickAdvance]
  | event e => simp only [applyOp]; rw [deliver_lastKeySlot]; exact h
  | getMouseDelta => exact h
  | mapAction n k b => exact h
  | unmapAction n => exact h
  | bindActionCallback n c => exact h

theorem applyOps_lastKeySlot (ops : List Op) : ∀ s : Input,
    s.m_KeyStates lastKeySlot = KeyState.Released →
    (applyOps s ops).1.m_KeyStates lastKeySlot = KeyState.Released := by
  induction ops with
  | nil => intro s h; exact h
  | cons op ops ih =>
    intro s h
    exact ih _ (applyOp_lastKeySlot s op h)

theorem last_key_queries (s : Input) :
    s.IsKeyPressed GLFW_KEY_LAST = false ∧ s.IsKeyHeld GLFW_KEY_LAST = false ∧
    s.IsKeyReleased GLFW_KEY_LAST = false ∧ s.IsKeyJustReleased GLFW_KEY_LAST = false ∧
    s.GetKeyState GLFW_KEY_LAST = KeyState.Released := by
  have h : (GLFW_KEY_LAST : Int) < 0 ∨ (GLFW_KEY_LAST : Int) ≥ GLFW_KEY_LAST := by omega
  refine ⟨?_, ?_, ?_, ?_, ?_⟩
  · unfold Input.IsKeyPressed; exact dif_pos h
  · unfold Input.IsKeyHeld; exact dif_pos h
  · unfold Input.IsKeyReleased; exact dif_pos h
  · unfold Input.IsKeyJustReleased; exact dif_pos h
  · unfold Input.GetKeyState; exact dif_pos h

theorem lookup_eraseAction_other (name n : String) (l : List (String × InputAction))
    (h : name ≠ n) : (Input.eraseAction n l).lookup name = l.lookup name := by
  induction l with
  | nil => rfl
  | cons p rest ih =>
    obtain ⟨m, a⟩ := p
    unfold Input.eraseAction
    by_cases hm : n = m
    · subst hm
      have hb : (name == n) = false := by simpa using h
      simp [List.lookup, hb]
    · have hb : (n == m) = false := by simpa using hm
      simp only [hb, Bool.false_eq_true, if_false, List.lookup_cons]
      rw [ih]

theorem lookup_assignCallback (name n : String) (callback : Option Nat)
    (l : List (String × InputAction)) :
    (Input.assignCallback n callback l).lookup name =
      (l.lookup name).map
        (fun a => if name = n then { a with callback := callback } else a) := by
  induction l with
  | nil => rfl
  | cons p rest ih =>
    obtain ⟨m, a⟩ := p
    unfold Input.assignCallback
    by_cases hm : n = m
    · subst hm
      by_cases hn : name = n
      · subst hn
        simp [List.lookup]
      · have hb : (name == n) = false := by simpa using hn
        simp [List.lookup, hb, hn]
    · have hb : (n == m) = false := by simpa using hm
      simp only [hb, Bool.false_eq_true, if_false, List.lookup_cons]
      cases hnm : (name == m) with
      | true =>
        have h1 : name = m := by simpa using hnm
        have h2 : name ≠ n := fun h => hm (h ▸ h1)
        simp [h2]
      | false => simpa using ih

theorem applyOp_boundToLastKeyOnly (s : Input) (op : Op) (name : String)
    (hu : actionNamesUnique s) (h : boundToLastKeyOnly s name)
    (hop : op.mapsName name = false) :
    boundToLastKeyOnly (applyOp s op).1 name := by
  intro a ha
  cases op with
  | update =>
    rw [applyOp, Update_m_Actions, updateActions_lookup] at ha
    cases hl : s.m_Actions.lookup name with
    | none => simp [hl] at ha
    | some a0 =>
      obtain ⟨hk, hb, _⟩ := h a0 hl
      simp only [hl, Option.map_some', Option.some.injEq] at ha
      rw [← ha, updateAction_eq]
      refine ⟨hk, hb, ?_⟩
      have hq := last_key_queries s.UpdateKeyStates.UpdateMouseButtonStates
      simp only [anyBoundDown, hk, hb, List.any_cons, List.any_nil, hq.1, hq.2.1, Bool.or_self,
        Bool.or_false]
  | event e =>
    rw [applyOp, deliver_m_Actions] at ha
    exact h a ha
  | getMouseDelta => exact h a ha
  | mapAction n k b =>
    have hne : name ≠ n := by
      intro heq
      simp [Op.mapsName, heq] at hop
    simp only [applyOp, Input.MapAction] at ha
    rw [lookup_assignAction_other _ _ _ _ hne] at ha
    exact h a ha
  | unmapAction n =>
    by_cases hn : name = n
    · subst hn
      have := UnmapAction_lookup s name hu
      simp only [applyOp] at ha
      rw [this] at ha
      cases ha
    · simp only [applyOp, Input.UnmapAction] at ha
      rw [lookup_eraseAction_other name n _ hn] at ha
      exact h a ha
  | bindActionCallback n c =>
    simp only [applyOp, Input.BindActionCallback] at ha
    rw [lookup_assignCallback] at ha
    cases hl : s.m_Actions.lookup name with
    | none => simp [hl] at ha
    | some a0 =>
      obtain ⟨hk, hb, hact⟩ := h a0 hl
      simp only [hl, Option.map_some', Option.some.injEq] at ha
      rw [← ha]
      split_ifs <;> exact ⟨hk, hb, hact⟩

theorem applyOps_boundToLastKeyOnly (ops : List Op) (name : String) : ∀ s : Input,
    actionNamesUnique s → boundToLastKeyOnly s name → (∀ op ∈ ops, op.mapsName name = false) →
    boundToLastKeyOnly (applyOps s ops).1 name := by
  induction ops with
  | nil => intro s _ h _; exact h
  | cons op ops ih =>
    intro s hu h hops
    exact ih _ (applyOp_actionNamesUnique s op hu)
      (applyOp_boundToLastKeyOnly s op name hu h (hops op (List.mem_cons_self _ _)))
      (fun o ho => hops o (List.mem_cons_of_mem _ ho))

/-- C29: the key table has a slot for `GLFW_KEY_LAST` (its last one), yet the
id is out of range everywhere: a key event for it changes nothing and every
query answers false or `Released` in every state; the slot is `Released`
after any sequence of uses of an `Input` since its construction; and an
action mapped to that key alone, at any point of that lifetime, is inactive
after any further uses that do not map its name again. -/
theorem last_key_is_dead (s : Input) (action : Int) (before later : List Op) (name : String)
    (hlater : ∀ op ∈ later, op.mapsName name = false) :
    (lastKeySlot.val = GLFW_KEY_LAST ∧ Input.init.m_KeyStates lastKeySlot = KeyState.Released) ∧
    s.KeyCallback GLFW_KEY_LAST action = s ∧
    (s.IsKeyPressed GLFW_KEY_LAST = false ∧ s.IsKeyHeld GLFW_KEY_LAST = false ∧
      s.IsKeyReleased GLFW_KEY_LAST = false ∧ s.IsKeyJustReleased GLFW_KEY_LAST = false ∧
      s.GetKeyState GLFW_KEY_LAST = KeyState.Released) ∧
    (applyOps Input.init before).1.m_KeyStates lastKeySlot = KeyState.Released ∧
    (applyOps ((applyOps Input.init before).1.MapAction name [GLFW_KEY_LAST] []) later).1.IsActionActive
      name = false := by
  refine ⟨⟨rfl, rfl⟩, KeyCallback_last s action, last_key_queries s,
    applyOps_lastKeySlot before Input.init rfl, ?_⟩
  have hu0 := applyOps_actionNamesUnique before Input.init init_actionNamesUnique
  have hu1 : actionNamesUnique ((applyOps Input.init before).1.MapAction name
      [GLFW_KEY_LAST] []) :=
    applyOp_actionNamesUnique _ (Op.mapAction name [GLFW_KEY_LAST] []) hu0
  have hb1 : boundToLastKeyOnly ((applyOps Input.init before).1.MapAction name
      [GLFW_KEY_LAST] []) name := by
    intro a ha
    rw [MapAction_lookup] at ha
    cases ha
    exact ⟨rfl, rfl, rfl⟩
  have hb := applyOps_boundToLastKeyOnly later name _ hu1 hb1 hlater
  rw [IsActionActive_of_lookup]
  cases hl : (applyOps ((applyOps Input.init before).1.MapAction name
      [GLFW_KEY_LAST] []) later).1.m_Actions.lookup name with
  | none => rfl
  | some a => exact (hb a hl).2.2

theorem last_key_is_dead_witness :
    (∀ op ∈ [Op.event (Event.key GLFW_KEY_LAST GLFW_PRESS), Op.update],
      op.mapsName "Menu" = false) ∧
    (applyOps ((applyOps Input.init [Op.update]).1.MapAction "Menu" [GLFW_KEY_LAST] [])
      [Op.event (Event.key GLFW_KEY_LAST GLFW_PRESS), Op.update]).1.IsActionActive "Menu"
      = false :=
  ⟨by intro op hop; simp at hop; rcases hop with h | h <;> rw [h] <;> rfl,
    (last_key_is_dead Input.init GLFW_PRESS [Op.update]
      [Op.event (Event.key GLFW_KEY_LAST GLFW_PRESS), Op.update] "Menu"
      (by intro op hop; simp at hop; rcases hop with h | h <;> rw [h] <;> rfl)).2.2.2.2⟩

/-! ## Properties of the logger's formatting -/

theorem splitPlaceholders_ne_nil (fmt : List Char) : splitPlaceholders fmt ≠ [] := by
  induction fmt using splitPlaceholders.induct with
  | case1 => simp [splitPlaceholders]
  | case2 c => simp [splitPlaceholders]
  | case3 c d rest h ih => simp [splitPlaceholders, h]
  | case4 c d rest h hs ih => exact absurd hs ih
  | case5 c d rest h p ps hs ih => simp [splitPlaceholders, h, hs]

theorem fillPlaceholders_cons_head (c : Char) (p : List Char) (ps args : List (List Char)) :
    fillPlaceholders ((c :: p) :: ps) args = c :: fillPlaceholders (p :: ps) args := by
  cases ps with
  | nil => simp [fillPlaceholders]
  | cons q qs =>
    cases args with
    | nil => simp [fillPlaceholders]
    | cons a as => simp [fillPlaceholders]

/-- Joining the pieces with the placeholder gives the format string back. -/
theorem fillPlaceholders_nil (fmt : List Char) :
    fillPlaceholders (splitPlaceholders fmt) [] = fmt := by
  induction fmt using splitPlaceholders.induct with
  | case1 => simp [splitPlaceholders, fillPlaceholders]
  | case2 c => simp [splitPlaceholders, fillPlaceholders]
  | case3 c d rest h ih =>
    simp only [splitPlaceholders, h, and_self, if_true]
    obtain ⟨q, qs, hq⟩ := List.exists_cons_of_ne_nil (splitPlaceholders_ne_nil rest)
    rw [hq] at ih ⊢
    simp only [fillPlaceholders, ih, placeholder, List.nil_append, List.cons_append, h.1, h.2]
  | case4 c d rest h hs ih => exact absurd hs (splitPlaceholders_ne_nil _)
  | case5 c d rest h p ps hs ih =>
    simp only [splitPlaceholders, h, if_false, hs]
    rw [fillPlaceholders_cons_head, ← hs, ih]

theorem splitPlaceholders_of_find (fmt : List Char) :
    (findPlaceholder fmt = none → splitPlaceholders fmt = [fmt]) ∧
    (∀ pos, findPlaceholder fmt = some pos →
      splitPlaceholders fmt = fmt.take pos :: splitPlaceholders (fmt.drop (pos + 2))) := by
  induction fmt using findPlaceholder.induct with
  | case1 => simp [findPlaceholder, splitPlaceholders]
  | case2 c => simp [findPlaceholder, splitPlaceholders]
  | case3 c d rest h =>
    simp [findPlaceholder, splitPlaceholders, h]
  | case4 c d rest h ih =>
    constructor
    · intro hf
      simp only [findPlaceholder, h, if_false, Option.map_eq_none'] at hf
      simp only [splitPlaceholders, h, if_false, ih.1 hf]
    · intro pos hf
      simp only [findPlaceholder, h, if_false, Option.map_eq_some'] at hf
      obtain ⟨q, hq, hpos⟩ := hf
      subst hpos
      simp only [splitPlaceholders, h, if_false, ih.2 q hq]
      simp

theorem FormatString_cons (fmt value : List Char) (args : List (List Char)) :
    FormatString fmt (value :: args) =
      match findPlaceholder fmt with
      | some pos => fmt.take pos ++ value ++ FormatString (fmt.drop (pos + 2)) args
      | none => fmt := by
  cases args with
  | nil =>
    simp only [FormatString]
  | cons a as => simp only [FormatString]

theorem FormatString_eq_fill (args : List (List Char)) : ∀ fmt : List Char,
    FormatString fmt args = fillPlaceholders (splitPlaceholders fmt) args := by
  induction args with
  | nil =>
    intro fmt
    rw [fillPlaceholders_nil]
    rfl
  | cons value args ih =>
    intro fmt
    rw [FormatString_cons]
    cases hf : findPlaceholder fmt with
    | none =>
      rw [(splitPlaceholders_of_find fmt).1 hf]
      simp [fillPlaceholders]
    | some pos =>
      rw [(splitPlaceholders_of_find fmt).2 pos hf]
      obtain ⟨q, qs, hq⟩ := List.exists_cons_of_ne_nil
        (splitPlaceholders_ne_nil (fmt.drop (pos + 2)))
      simp only [ih, hq, fillPlaceholders]

theorem splitPlaceholders_head (d : Char) (rest p : List Char) (ps : List (List Char))
    (h : splitPlaceholders (d :: rest) = p :: ps) : p = [] ∨ ∃ r, p = d :: r := by
  cases rest with
  | nil =>
    simp only [splitPlaceholders, List.cons.injEq] at h
    exact Or.inr ⟨[], h.1.symm⟩
  | cons e r =>
    by_cases hc : d = Char.ofNat 123 ∧ e = Char.ofNat 125
    · simp only [splitPlaceholders, hc, and_self, if_true, List.cons.injEq] at h
      exact Or.inl h.1.symm
    · simp only [splitPlaceholders, hc, if_false] at h
      obtain ⟨q, qs, hq⟩ := List.exists_cons_of_ne_nil (splitPlaceholders_ne_nil (e :: r))
      rw [hq] at h
      simp only [List.cons.injEq] at h
      exact Or.inr ⟨q, h.1.symm⟩

/-- No piece of a format string contains the placeholder. -/
theorem splitPlaceholders_pieces (fmt : List Char) :
    ∀ p ∈ splitPlaceholders fmt, findPlaceholder p = none := by
  induction fmt using splitPlaceholders.induct with
  | case1 => simp [splitPlaceholders, findPlaceholder]
  | case2 c => simp [splitPlaceholders, findPlaceholder]
  | case3 c d rest h ih =>
    intro p hp
    simp only [splitPlaceholders, h, and_self, if_true, List.mem_cons] at hp
    rcases hp with hp | hp
    · rw [hp]; rfl
    · exact ih p hp
  | case4 c d rest h hs ih => exact absurd hs (splitPlaceholders_ne_nil _)
  | case5 c d rest h p0 ps hs ih =>
    intro p hp
    simp only [splitPlaceholders, h, if_false, hs, List.mem_cons] at hp
    rcases hp with hp | hp
    · have h0 : findPlaceholder p0 = none := ih p0 (by rw [hs]; exact List.mem_cons_self _ _)
      rw [hp]
      rcases splitPlaceholders_head d rest p0 ps hs with he | ⟨r, hr⟩
      · rw [he]; rfl
      · rw [hr] at h0 ⊢
        simp only [findPlaceholder, h, if_false, h0, Option.map_none']
    · exact ih p (by rw [hs]; exact List.mem_cons_of_mem _ hp)

/-- Arguments beyond the number of placeholders are discarded. -/
theorem fillPlaceholders_extra (pieces : List (List Char)) :
    ∀ args extra : List (List Char), pieces.length - 1 ≤ args.length →
    fillPlaceholders pieces (args ++ extra) = fillPlaceholders pieces args := by
  induction pieces with
  | nil => intro args extra _; simp [fillPlaceholders]
  | cons p ps ih =>
    intro args extra h
    cases ps with
    | nil => simp [fillPlaceholders]
    | cons q qs =>
      cases args with
      | nil => simp at h
      | cons a as =>
        have hih := ih as extra (by simpa using h)
        simp only [List.cons_append, fillPlaceholders]
        exact congrArg (fun t => p ++ a ++ t) hih

/-- Arguments beyond the number of placeholders are discarded, however many
arguments there are. -/
theorem fillPlaceholders_take (pieces : List (List Char)) : ∀ args : List (List Char),
    fillPlaceholders pieces (args.take (pieces.length - 1)) = fillPlaceholders pieces args := by
  induction pieces with
  | nil => intro args; simp [fillPlaceholders]
  | cons p ps ih =>
    intro args
    cases ps with
    | nil => simp [fillPlaceholders]
    | cons q qs =>
      cases args with
      | nil => simp
      | cons a as =>
        have hih := ih as
        simp only [List.length_cons, Nat.add_sub_cancel] at hih
        simp only [List.length_cons, Nat.add_sub_cancel, List.take_succ_cons, fillPlaceholders]
        exact congrArg (fun t => p ++ a ++ t) hih

/-- A placeholder for which no argument is left is written as it stands:
the text is the one obtained with the placeholder itself as the argument. -/
theorem fillPlaceholders_pad (pieces : List (List Char)) : ∀ args : List (List Char),
    fillPlaceholders pieces
      (args ++ List.replicate (pieces.length - 1 - args.length) placeholder)
      = fillPlaceholders pieces args := by
  induction pieces with
  | nil => intro args; simp [fillPlaceholders]
  | cons p ps ih =>
    intro args
    cases ps with
    | nil => simp [fillPlaceholders]
    | cons q qs =>
      cases args with
      | nil =>
        have hih := ih []
        simp only [List.length_cons, Nat.add_sub_cancel, List.length_nil, Nat.sub_zero,
          List.nil_append] at hih
        simp only [List.length_cons, Nat.add_sub_cancel, List.length_nil, Nat.sub_zero,
          List.nil_append, List.replicate_succ, fillPlaceholders]
        exact congrArg (fun t => p ++ placeholder ++ t) hih
      | cons a as =>
        have hih := ih as
        simp only [List.length_cons, Nat.add_sub_cancel] at hih
        simp only [List.length_cons, Nat.add_sub_cancel, Nat.add_sub_add_right,
          List.cons_append, fillPlaceholders]
        exact congrArg (fun t => p ++ a ++ t) hih

/-- C30: `Logger::Log(level, fmt, a1, .., an)` writes `fmt` with the first
`min(n, k)` of its `k` placeholders replaced from left to right by
`a1, a2, ..` and all other text unchanged, for every format string and every
number of arguments.  The message is the `k + 1` pieces of `fmt` between the
occurrences of the placeholder (pieces that contain no placeholder and that,
joined by placeholders, give `fmt` back), joined by the arguments and, once
these are used up, by the placeholders themselves.  Hence the message is the
same with the arguments cut to the first `k`, and the same with the arguments
followed by `k - n` placeholders as further arguments: it is the pieces joined
by exactly `k` texts, the first `min(n, k)` arguments and then `k - n`
placeholders.  Arguments added to at least `k` arguments change nothing, and a
format string with no placeholder is written verbatim. -/
theorem Log_replaces_placeholders (level : LogLevel) (fmt plain : List Char)
    (args extra : List (List Char)) :
    Logger.Log true level fmt args
      = [(level, fillPlaceholders (splitPlaceholders fmt) args)] ∧
    (fillPlaceholders (splitPlaceholders fmt) [] = fmt ∧
      (∀ p ∈ splitPlaceholders fmt, findPlaceholder p = none) ∧
      (splitPlaceholders fmt).length = countPlaceholders fmt + 1) ∧
    Logger.Log true level fmt (args.take (countPlaceholders fmt))
      = Logger.Log true level fmt args ∧
    Logger.Log true level fmt
        (args ++ List.replicate (countPlaceholders fmt - args.length) placeholder)
      = Logger.Log true level fmt args ∧
    (Logger.Log true level fmt args
        = [(level, fillPlaceholders (splitPlaceholders fmt)
            (args.take (countPlaceholders fmt) ++
              List.replicate (countPlaceholders fmt - args.length) placeholder))] ∧
      (args.take (countPlaceholders fmt)).length = min args.length (countPlaceholders fmt) ∧
      (args.take (countPlaceholders fmt) ++
        List.replicate (countPlaceholders fmt - args.length) placeholder).length
        = countPlaceholders fmt) ∧
    (countPlaceholders fmt ≤ args.length →
      Logger.Log true level fmt (args ++ extra) = Logger.Log true level fmt args) ∧
    (findPlaceholder plain = none → Logger.Log true level plain args = [(level, plain)]) := by
  have hlen : (splitPlaceholders fmt).length = countPlaceholders fmt + 1 := by
    have := List.length_pos.2 (splitPlaceholders_ne_nil fmt)
    unfold countPlaceholders
    omega
  refine ⟨?_, ⟨fillPlaceholders_nil fmt, splitPlaceholders_pieces fmt, hlen⟩, ?_, ?_,
    ⟨?_, ?_, ?_⟩, ?_, ?_⟩
  · simp [Logger.Log, FormatString_eq_fill]
  · simp only [Logger.Log, FormatString_eq_fill, countPlaceholders]
    rw [fillPlaceholders_take]
  · simp only [Logger.Log, FormatString_eq_fill, countPlaceholders]
    rw [fillPlaceholders_pad]
  · have hpad := fillPlaceholders_pad (splitPlaceholders fmt)
      (args.take ((splitPlaceholders fmt).length - 1))
    have hsub : (splitPlaceholders fmt).length - 1
        - (args.take ((splitPlaceholders fmt).length - 1)).length
        = (splitPlaceholders fmt).length - 1 - args.length := by
      rw [List.length_take]; omega
    rw [hsub, fillPlaceholders_take] at hpad
    simp only [Logger.Log, FormatString_eq_fill, countPlaceholders, hpad, Bool.not_true,
      Bool.false_eq_true, if_false]
  · rw [List.length_take]; exact Nat.min_comm _ _
  · rw [List.length_append, List.length_take, List.length_replicate]; omega
  · intro hcount
    simp only [Logger.Log, FormatString_eq_fill]
    rw [fillPlaceholders_extra _ args extra hcount]
  · intro hplain
    simp only [Logger.Log, FormatString_eq_fill]
    rw [(splitPlaceholders_of_find plain).1 hplain]
    simp [fillPlaceholders]

theorem Log_replaces_placeholders_witness :
    (countPlaceholders windowFormat = 2 ∧ findPlaceholder jumpFormat = none) ∧
    Logger.Log true LogLevel.Info windowFormat ["1280".toList]
      = [(LogLevel.Info, "Window created successfully: 1280x\x7b\x7d".toList)] ∧
    Logger.Log true LogLevel.Info windowFormat ["1280".toList, "720".toList, "60".toList]
      = Logger.Log true LogLevel.Info windowFormat ["1280".toList, "720".toList] ∧
    Logger.Log true LogLevel.Info jumpFormat ["500".toList]
      = [(LogLevel.Info, jumpFormat)] :=
  ⟨⟨by decide, by decide⟩,
    ((Log_replaces_placeholders LogLevel.Info windowFormat jumpFormat
      ["1280".toList] []).1).trans (by decide),
    (Log_replaces_placeholders LogLevel.Info windowFormat jumpFormat
      ["1280".toList, "720".toList] ["60".toList]).2.2.2.2.2.1 (by decide),
    (Log_replaces_placeholders LogLevel.Info windowFormat jumpFormat
      ["500".toList] []).2.2.2.2.2.2 (by decide)⟩

theorem windowFormat_example :
    FormatString windowFormat ["1280".toList, "720".toList]
      = "Window created successfully: 1280x720".toList ∧
    FormatString windowFormat ["1280".toList]
      = "Window created successfully: 1280x\x7b\x7d".toList ∧
    FormatString windowFormat ["1280".toList, "720".toList, "60".toList]
      = "Window created successfully: 1280x720".toList := by
  decide

end Platformer
